import Mathlib

/-!
Verification development for the Wavu-wiki frame-data importer
(`DatabaseMan/Tekken8/ImportFrameDataFromWavu.py`).

The Python source is shallowly embedded: every string-processing step is
hand-compiled to an executable Lean function over `List Char`.  Python
regular-expression substitutions are compiled to deterministic scanners whose
behaviour coincides with `re.sub`/`re.search`/`re.findall` semantics
(leftmost match, greedy/lazy quantifiers resolved per pattern, literal
`IGNORECASE`/`DOTALL` handling); each scanner carries a comment quoting the
pattern it embeds.  Machine integers are `Int`/`Nat` (Python ints are
unbounded, so no wrap-around modelling is needed).  Brace characters are
written with `\x7b` / `\x7d` escapes throughout.
-/

/-! ### Basic character and list utilities (Python string primitives) -/

/-- Python whitespace for `str.strip` / `\s`: space, tab, newline,
carriage return, vertical tab, form feed. -/
def pyIsSpace (c : Char) : Bool :=
  c == ' ' || c == '\t' || c == '\n' || c == '\r' || c == '\x0b' || c == '\x0c'

/-- Python `str.strip()` (both ends). -/
def pyStrip (cs : List Char) : List Char :=
  ((cs.dropWhile pyIsSpace).reverse.dropWhile pyIsSpace).reverse

/-- Python `str.lower()` (ASCII range; the data handled here is ASCII). -/
def lowerAll (cs : List Char) : List Char :=
  cs.map Char.toLower

/-- Does `cs` start with the pattern `pat`? (Python `str.startswith`). -/
def startsWithSeq : List Char → List Char → Bool
  | [], _ => true
  | _ :: _, [] => false
  | p :: ps, c :: cs => p == c && startsWithSeq ps cs

/-- Does `cs` end with the pattern `pat`? (Python `str.endswith`). -/
def endsWithSeq (pat cs : List Char) : Bool :=
  startsWithSeq pat.reverse cs.reverse

/-- Does `pat` occur as a contiguous subsequence of `cs`? (Python `in`). -/
def containsSeq (pat : List Char) : List Char → Bool
  | [] => startsWithSeq pat []
  | c :: cs => startsWithSeq pat (c :: cs) || containsSeq pat cs

/-- Index of the first occurrence of `pat` in `cs` (`cs.length` if absent);
Python `str.index` / `str.find` for present patterns. -/
def idxOfSeq (pat : List Char) : List Char → Nat
  | [] => 0
  | c :: cs => if startsWithSeq pat (c :: cs) then 0 else 1 + idxOfSeq pat cs

/-- Suffix of `cs` after the first occurrence of `pat`
(Python `s[s.index(pat)+len(pat):]`, also `s.split(pat, 1)[1]`). -/
def afterFirstSeq (pat cs : List Char) : List Char :=
  cs.drop (idxOfSeq pat cs + pat.length)

/-- Case-insensitive variants (pattern given in lowercase). -/
def containsSeqCI (pat cs : List Char) : Bool :=
  containsSeq pat (lowerAll cs)

def startsWithSeqCI (pat cs : List Char) : Bool :=
  startsWithSeq pat (lowerAll cs)

def idxOfSeqCI (pat cs : List Char) : Nat :=
  idxOfSeq pat (lowerAll cs)

/-- Python `str.split(sep)` for a one-character separator. -/
def splitOnChar (sep : Char) : List Char → List (List Char)
  | [] => [[]]
  | c :: cs =>
    if c == sep then [] :: splitOnChar sep cs
    else
      match splitOnChar sep cs with
      | [] => [[c]]
      | t :: ts => (c :: t) :: ts

/-- Python `sep.join(parts)`. -/
def joinSep (sep : List Char) : List (List Char) → List Char
  | [] => []
  | [x] => x
  | x :: y :: xs => x ++ sep ++ joinSep sep (y :: xs)

/-- Index of the last occurrence of a character, if any. -/
def lastIdxOfChar (ch : Char) : List Char → Option Nat
  | [] => none
  | c :: cs =>
    match lastIdxOfChar ch cs with
    | some i => some (i + 1)
    | none => if c == ch then some 0 else none

/-- Digit-run to number: `int` of a nonempty ASCII digit string. -/
def digitsToNat (cs : List Char) : Nat :=
  cs.foldl (fun acc c => acc * 10 + (c.toNat - '0'.toNat)) 0

/-! ### Generic leftmost-match substitution scanner

`re.sub` semantics: at each position try the pattern; on a match emit the
replacement and resume after the match, otherwise keep one character and
advance.  Each concrete `try` function below consumes at least one character
on success, so `fuel = cs.length` never runs out. -/

def scanSub (tryf : List Char → Option (List Char × List Char)) :
    Nat → List Char → List Char
  | 0, cs => cs
  | _ + 1, [] => []
  | fuel + 1, c :: cs =>
    match tryf (c :: cs) with
    | some (repl, rest) => repl ++ scanSub tryf fuel rest
    | none => c :: scanSub tryf fuel cs

def runSub (tryf : List Char → Option (List Char × List Char))
    (cs : List Char) : List Char :=
  scanSub tryf cs.length cs

/-! ### `_clean_numerical` (source lines 111–128) -/

/-- Letters stripped by `^[iIaAdDcCtT]` in
`re.sub(r'^[iIaAdDcCtT]|[aAdDcCtTgG]$', '', ...)`. -/
def leadLetters : List Char := ['i', 'I', 'a', 'A', 'd', 'D', 'c', 'C', 't', 'T']

/-- Letters stripped by `[aAdDcCtTgG]$` in the same substitution. -/
def trailLetters : List Char := ['a', 'A', 'd', 'D', 'c', 'C', 't', 'T', 'g', 'G']

/-- `re.sub(r'^[iIaAdDcCtT]|[aAdDcCtTgG]$', '', value.strip())`: the
substitution removes a leading classification letter and a trailing
classification letter (both, when both match; the two alternatives are
anchored so at most one match occurs at each end). -/
def stripClassLetters (cs : List Char) : List Char :=
  let r1 :=
    match cs with
    | [] => []
    | c :: rest => if c ∈ leadLetters then rest else c :: rest
  match r1.getLast? with
  | some c => if c ∈ trailLetters then r1.dropLast else r1
  | none => r1

/-- One step of `re.sub(r'\(.*\)', '', cleaned)`: at `(`, the greedy `.*`
(no DOTALL, so it cannot cross a newline) extends to the last `)` on the
same line; without a closing `)` on the line there is no match here. -/
def tryParens : List Char → Option (List Char × List Char)
  | [] => none
  | c :: cs =>
    if c == '(' then
      match lastIdxOfChar ')' (cs.takeWhile (fun ch => ch != '\n')) with
      | some j => some ([], cs.drop (j + 1))
      | none => none
    else none

/-- `re.sub(r'\(.*\)', '', cleaned)`. -/
def removeParens (cs : List Char) : List Char :=
  runSub tryParens cs

/-- `re.search(r'[-+]?\d+', cleaned)` followed by `int(...)`: the first
signed integer literal, scanning left to right. -/
def findFirstInt : List Char → Option Int
  | [] => none
  | c :: cs =>
    if c.isDigit then
      some (Int.ofNat (digitsToNat ((c :: cs).takeWhile Char.isDigit)))
    else if c == '+' then
      match cs with
      | d :: _ =>
        if d.isDigit then some (Int.ofNat (digitsToNat (cs.takeWhile Char.isDigit)))
        else findFirstInt cs
      | [] => none
    else if c == '-' then
      match cs with
      | d :: _ =>
        if d.isDigit then some (-Int.ofNat (digitsToNat (cs.takeWhile Char.isDigit)))
        else findFirstInt cs
      | [] => none
    else findFirstInt cs

/-- The text pipeline of `_clean_numerical` before integer extraction:
strip, drop classification letters, drop parenthesised content, cut at the
first `~`, then at the first `,`. -/
def numericCore (cs : List Char) : List Char :=
  (((removeParens (stripClassLetters (pyStrip cs))).takeWhile
      (fun c => c != '~')).takeWhile (fun c => c != ','))

/-- `DatabaseMan._clean_numerical` on a string argument: first signed
integer of the cleaned text, or `none`. -/
def cleanNumerical (cs : List Char) : Option Int :=
  findFirstInt (numericCore cs)

/-- `DatabaseMan._clean_numerical` on `dict.get(...)` (possibly `None`):
non-string input returns `None`. -/
def cleanNumericalOpt : Option (List Char) → Option Int
  | none => none
  | some cs => cleanNumerical cs

/-! ### `_clean_sum_damage` (source lines 130–144) -/

/-- `re.findall(r'\d+', value)`: all maximal digit runs.  Fuel-based so the
kernel can evaluate it; each step consumes at least one character, so
`fuel = cs.length` suffices. -/
def allDigitRunsAux : Nat → List Char → List (List Char)
  | 0, _ => []
  | _ + 1, [] => []
  | fuel + 1, c :: cs =>
    if c.isDigit then
      (c :: cs.takeWhile Char.isDigit) :: allDigitRunsAux fuel (cs.dropWhile Char.isDigit)
    else allDigitRunsAux fuel cs

def allDigitRuns (cs : List Char) : List (List Char) :=
  allDigitRunsAux cs.length cs

/-- `DatabaseMan._clean_sum_damage` on a string: sum of all integer
literals found in the field. -/
def cleanSumDamage (cs : List Char) : Nat :=
  ((allDigitRuns cs).map digitsToNat).sum

/-- `DatabaseMan._clean_sum_damage` on `dict.get(...)`: non-string → 0. -/
def cleanSumDamageOpt : Option (List Char) → Nat
  | none => 0
  | some cs => cleanSumDamage cs

/-! ### Regex scanners shared by `_clean_wikitext` (lines 81–109) and
`_clean_notes_string` (lines 146–205)

Each `try...` function embeds one `re.sub` pattern: it reports a match
starting at the head of the input together with the replacement text and the
remainder after the match, or `none`. -/

/-- `\{\{[^\|\}]+\|([^}]+)\}\}` → `\1` (wikitext step 1 and notes step 5):
`\x7b\x7b`, a nonempty run without `|`/`\x7d`, `|`, a nonempty run without
`\x7d`, `\x7d\x7d`. -/
def tryBracePipeCap (cs : List Char) : Option (List Char × List Char) :=
  if startsWithSeq ['\x7b', '\x7b'] cs then
    let t := cs.drop 2
    let run1 := t.takeWhile (fun c => c != '\x7d' && c != '|')
    let t1 := t.drop run1.length
    if run1 ≠ [] && startsWithSeq ['|'] t1 then
      let t2 := t1.drop 1
      let run2 := t2.takeWhile (fun c => c != '\x7d')
      if run2 ≠ [] && startsWithSeq ['\x7d', '\x7d'] (t2.drop run2.length) then
        some (run2, t2.drop (run2.length + 2))
      else none
    else none
  else none

/-- `\{\{([^}]+)\}\}` → `\1` (wikitext step 2). -/
def tryBraceAllCap (cs : List Char) : Option (List Char × List Char) :=
  if startsWithSeq ['\x7b', '\x7b'] cs then
    let t := cs.drop 2
    let run := t.takeWhile (fun c => c != '\x7d')
    if run ≠ [] && startsWithSeq ['\x7d', '\x7d'] (t.drop run.length) then
      some (run, t.drop (run.length + 2))
    else none
  else none

/-- `\{\{([^}|]+)\}\}` → `\1` (notes step 4). -/
def tryBraceNoPipeCap (cs : List Char) : Option (List Char × List Char) :=
  if startsWithSeq ['\x7b', '\x7b'] cs then
    let t := cs.drop 2
    let run := t.takeWhile (fun c => c != '\x7d' && c != '|')
    if run ≠ [] && startsWithSeq ['\x7d', '\x7d'] (t.drop run.length) then
      some (run, t.drop (run.length + 2))
    else none
  else none

/-- `\{\{[^}]+\}\}` → `''` (hit-level cleanup, line 442). -/
def tryBraceAllDel (cs : List Char) : Option (List Char × List Char) :=
  if startsWithSeq ['\x7b', '\x7b'] cs then
    let t := cs.drop 2
    let run := t.takeWhile (fun c => c != '\x7d')
    if run ≠ [] && startsWithSeq ['\x7d', '\x7d'] (t.drop run.length) then
      some ([], t.drop (run.length + 2))
    else none
  else none

/-- `\[\[(?:[^\|\]]+\|)?([^\]]+)\]\]` → `\1` (wikitext step 3 and hit-level
cleanup): the capture group may contain `|`; after resolving the optional
group's backtracking, with `r` the maximal `]`-free run after `[[` and `k`
the index of the first `|` in `r`, the capture is `r[k+1:]` when `0 < k`
and the pipe is not last, else all of `r`. -/
def tryLinkA (cs : List Char) : Option (List Char × List Char) :=
  if startsWithSeq ['[', '['] cs then
    let t := cs.drop 2
    let r := t.takeWhile (fun c => c != ']')
    if r ≠ [] && startsWithSeq [']', ']'] (t.drop r.length) then
      let rest := t.drop (r.length + 2)
      if '|' ∈ r then
        let k := idxOfSeq ['|'] r
        if 1 ≤ k && k + 1 < r.length then some (r.drop (k + 1), rest)
        else some (r, rest)
      else some (r, rest)
    else none
  else none

/-- `\[\[(?:[^|\]]+\|)?([^|\]]+)\]\]` → `\1` (notes step 6): here the
capture group may not contain `|`, so with two or more pipes, or a pipe in
first or last position, nothing matches at this occurrence. -/
def tryLinkB (cs : List Char) : Option (List Char × List Char) :=
  if startsWithSeq ['[', '['] cs then
    let t := cs.drop 2
    let r := t.takeWhile (fun c => c != ']')
    if r ≠ [] && startsWithSeq [']', ']'] (t.drop r.length) then
      let rest := t.drop (r.length + 2)
      if '|' ∈ r then
        let k := idxOfSeq ['|'] r
        let r2 := r.drop (k + 1)
        if 1 ≤ k && r2 ≠ [] && '|' ∉ r2 then some (r2, rest)
        else none
      else some (r, rest)
    else none
  else none

/-- `<!--.*?-->` → `''` (DOTALL): lazily up to the first `-->`. -/
def tryComment (cs : List Char) : Option (List Char × List Char) :=
  if startsWithSeq "<!--".toList cs then
    let t := cs.drop 4
    if containsSeq "-->".toList t then some ([], afterFirstSeq "-->".toList t)
    else none
  else none

/-- `<br\s*/?>` → `' '` (IGNORECASE). -/
def tryBr (cs : List Char) : Option (List Char × List Char) :=
  if startsWithSeqCI "<br".toList cs then
    let t := cs.drop 3
    let ws := t.takeWhile pyIsSpace
    let t1 := t.drop ws.length
    if startsWithSeq "/>".toList t1 then some ([' '], t1.drop 2)
    else if startsWithSeq ">".toList t1 then some ([' '], t1.drop 1)
    else none
  else none

/-- `<ref.*?>.*?</ref>` → `''` (DOTALL, IGNORECASE): `<ref`, lazily to the
first `>`, then lazily to the first `</ref>`. -/
def tryRefPair (cs : List Char) : Option (List Char × List Char) :=
  if startsWithSeqCI "<ref".toList cs then
    let a := cs.drop 4
    if '>' ∈ a then
      let b := a.drop (idxOfSeq ['>'] a + 1)
      if containsSeqCI "</ref>".toList b then
        some ([], b.drop (idxOfSeqCI "</ref>".toList b + 6))
      else none
    else none
  else none

/-- Tail matcher for `<ref\s+name=.*?\s*/>`: after `name=`, the lazy run
(`.` does not cross a newline) grows until `\s*/>` matches. -/
def refSelfEnd : List Char → Option (List Char)
  | [] => none
  | c :: cs =>
    let w := (c :: cs).dropWhile pyIsSpace
    if startsWithSeq "/>".toList w then some (w.drop 2)
    else if c != '\n' then refSelfEnd cs
    else none

/-- `<ref\s+name=.*?\s*/>` → `''` (IGNORECASE). -/
def tryRefSelf (cs : List Char) : Option (List Char × List Char) :=
  if startsWithSeqCI "<ref".toList cs then
    let m0 := cs.drop 4
    let ws := m0.takeWhile pyIsSpace
    let m1 := m0.drop ws.length
    if ws ≠ [] && startsWithSeqCI "name=".toList m1 then
      match refSelfEnd (m1.drop 5) with
      | some rest => some ([], rest)
      | none => none
    else none
  else none

/-- `<[a-zA-Z/][^>]*>` → `''` (wikitext step 8). -/
def tryHtmlTag (cs : List Char) : Option (List Char × List Char) :=
  match cs with
  | '<' :: d :: t =>
    if d.isAlpha || d == '/' then
      let run := t.takeWhile (fun c => c != '>')
      if startsWithSeq ">".toList (t.drop run.length) then
        some ([], t.drop (run.length + 1))
      else none
    else none
  | _ => none

/-- `<[^>]+>` → `''` (hit-level cleanup, line 440). -/
def tryAngleDel (cs : List Char) : Option (List Char × List Char) :=
  match cs with
  | '<' :: t =>
    let run := t.takeWhile (fun c => c != '>')
    if run ≠ [] && startsWithSeq ">".toList (t.drop run.length) then
      some ([], t.drop (run.length + 1))
    else none
  | _ => none

/-- `text.replace('&nbsp;', ' ')`. -/
def tryNbsp (cs : List Char) : Option (List Char × List Char) :=
  if startsWithSeq "&nbsp;".toList cs then some ([' '], cs.drop 6) else none

/-- `DatabaseMan._clean_wikitext` (lines 81–109): the eight substitutions in
source order, then the `&nbsp;` replacement and a final strip. -/
def cleanWikitext (text : List Char) : List Char :=
  if text = [] then []
  else
    pyStrip (runSub tryNbsp
      (runSub tryHtmlTag
        (runSub tryRefSelf
          (runSub tryRefPair
            (runSub tryBr
              (runSub tryComment
                (runSub tryLinkA
                  (runSub tryBraceAllCap
                    (runSub tryBracePipeCap text)))))))))

/-! ### `_clean_notes_string` (lines 146–205) -/

/-- One step of `re.sub(r'\{\{\s*TAG\s*(?:\|.*?)?\}\}', repl, ..., re.I)`
for a fixed tag (given lowercased): after the tag name and optional
whitespace, either `\x7d\x7d` closes directly, or `|` starts a lazy,
newline-free run up to the first `\x7d\x7d`. -/
def tagLazyTail : List Char → Option (List Char)
  | [] => none
  | c :: cs =>
    if startsWithSeq ['\x7d', '\x7d'] (c :: cs) then some cs.tail
    else if c != '\n' then tagLazyTail cs
    else none

def tryTagRepl (tagLower repl cs : List Char) : Option (List Char × List Char) :=
  if startsWithSeq ['\x7b', '\x7b'] cs then
    let t := cs.drop 2
    let ws1 := t.takeWhile pyIsSpace
    let t1 := t.drop ws1.length
    if startsWithSeqCI tagLower t1 then
      let t2 := t1.drop tagLower.length
      let ws2 := t2.takeWhile pyIsSpace
      let t3 := t2.drop ws2.length
      if startsWithSeq ['\x7d', '\x7d'] t3 then some (repl, t3.drop 2)
      else if startsWithSeq ['|'] t3 then
        match tagLazyTail (t3.drop 1) with
        | some rest => some (repl, rest)
        | none => none
      else none
    else none
  else none

/-- The `specific_tag_replacements` table (lines 161–173), in insertion
order; tags are stored lowercased for the IGNORECASE comparison. -/
def notesTagList : List (List Char × List Char) :=
  [("heatengager".toList, "Heat Engager".toList),
   ("heatsmash".toList, "Heat Smash".toList),
   ("heatburst".toList, "Heat Burst".toList),
   ("heatdash".toList, "Heat Dash".toList),
   ("bb".toList, "Balcony Break".toList),
   ("wb".toList, "Wall Break".toList),
   ("ws".toList, "While Standing".toList),
   ("fb".toList, "Floor Break".toList),
   ("reversalbreak".toList, "Reversal Break".toList),
   ("spike".toList, "Spike".toList),
   ("dotlist".toList, [])]

def applyTagRepls (cs : List Char) : List Char :=
  notesTagList.foldl (fun acc tr => runSub (tryTagRepl tr.1 tr.2) acc) cs

/-- `re.match(r'\{\{\s*Plainlist\s*\|(.*)\}\}$', notes_content, DOTALL|I)`:
unwraps a single outer Plainlist wrapper; the input is already stripped, so
`$` is plain end-of-string here. -/
def plainlistUnwrap (n0 : List Char) : List Char :=
  if startsWithSeq ['\x7b', '\x7b'] n0 then
    let t := n0.drop 2
    let t1 := t.drop (t.takeWhile pyIsSpace).length
    if startsWithSeqCI "plainlist".toList t1 then
      let t2 := t1.drop 9
      let t3 := t2.drop (t2.takeWhile pyIsSpace).length
      if startsWithSeq ['|'] t3 then
        let body := t3.drop 1
        if endsWithSeq ['\x7d', '\x7d'] body then
          pyStrip (body.take (body.length - 2))
        else n0
      else n0
    else n0
  else n0

/-- The line-level cleanup (lines 192–205): split on newlines, strip each
line, drop a single leading `*` list marker, drop empty lines, and join the
survivors with `'; '`. -/
def notesLineClean (cs : List Char) : List Char :=
  joinSep "; ".toList
    (((splitOnChar '\n' cs).map (fun line =>
        let s := pyStrip line
        if s = [] then []
        else if startsWithSeq ['*'] s then pyStrip (s.drop 1)
        else s)).filter (fun l => l ≠ []))

/-- `DatabaseMan._clean_notes_string` (lines 146–205). -/
def cleanNotes (notes : List Char) : List Char :=
  if notes = [] then []
  else
    notesLineClean
      (runSub tryRefSelf
        (runSub tryRefPair
          (runSub tryBr
            (runSub tryComment
              (runSub tryLinkB
                (runSub tryBracePipeCap
                  (runSub tryBraceNoPipeCap
                    (applyTagRepls (plainlistUnwrap (pyStrip notes))))))))))

/-! ### Template tokenizers (`_parse_move_table`, lines 227–320)

`re.findall` is embedded as a fuel-based scan: try a match at each position,
emit it and resume after the match, else advance one character. -/

def scanAll {β : Type} (tryf : List Char → Option (β × List Char)) :
    Nat → List Char → List β
  | 0, _ => []
  | _ + 1, [] => []
  | fuel + 1, c :: cs =>
    match tryf (c :: cs) with
    | some (x, rest) => x :: scanAll tryf fuel rest
    | none => scanAll tryf fuel cs

/-- Association-list model of a Python `dict`: first match wins on lookup
(keys are unique by construction). -/
def alookup {β : Type} : List (List Char × β) → List Char → Option β
  | [], _ => none
  | (k0, v0) :: rest, k => if k0 = k then some v0 else alookup rest k

/-- Python `dict` assignment: overwrite in place (keeping insertion
position), else append. -/
def dictSet {β : Type} : List (List Char × β) → List Char → β → List (List Char × β)
  | [], k, v => [(k, v)]
  | (k0, v0) :: rest, k, v =>
    if k0 = k then (k, v) :: rest else (k0, v0) :: dictSet rest k v

/-- Innermost nesting level of the move-template body regex:
`\{\{[^{}]*\}\}` after its opening `\x7b\x7b`; returns the remainder after
the closing `\x7d\x7d`. -/
def parseNest2 (t : List Char) : Option (List Char) :=
  let run := t.takeWhile (fun c => c != '\x7b' && c != '\x7d')
  let t1 := t.drop run.length
  if startsWithSeq ['\x7d', '\x7d'] t1 then some (t1.drop 2) else none

/-- Middle nesting level: `\{\{(?:[^{}]|\{\{[^{}]*\}\})*\}\}` after its
opening `\x7b\x7b`.  A lone brace makes both alternatives fail, so the
match at this start position fails. -/
def parseNest1 : Nat → List Char → Option (List Char)
  | 0, _ => none
  | fuel + 1, t =>
    if startsWithSeq ['\x7d', '\x7d'] t then some (t.drop 2)
    else
      match t with
      | [] => none
      | c :: cs =>
        if c == '\x7b' then
          if startsWithSeq ['\x7b'] cs then
            match parseNest2 (cs.drop 1) with
            | some rest => parseNest1 fuel rest
            | none => none
          else none
        else if c == '\x7d' then none
        else parseNest1 fuel cs

/-- Body of the `\{\{Move\s*\|(...)\}\}` regex (line 231):
`((?:[^{}]|(?:\{\{(?:[^{}]|(?:\{\{[^{}]*\}\}))*\}\}))*)` followed by
`\}\}`; returns the captured body and the remainder after the closing
braces.  Nested templates are kept verbatim inside the capture. -/
def parseBody : Nat → List Char → Option (List Char × List Char)
  | 0, _ => none
  | fuel + 1, t =>
    if startsWithSeq ['\x7d', '\x7d'] t then some ([], t.drop 2)
    else
      match t with
      | [] => none
      | c :: cs =>
        if c == '\x7b' then
          if startsWithSeq ['\x7b'] cs then
            match parseNest1 cs.length (cs.drop 1) with
            | some rest =>
              match parseBody fuel rest with
              | some (body, fin) =>
                some (t.take (t.length - rest.length) ++ body, fin)
              | none => none
            | none => none
          else none
        else if c == '\x7d' then none
        else
          match parseBody fuel cs with
          | some (body, fin) => some (c :: body, fin)
          | none => none

/-- One occurrence of the `\{\{Move\s*\|(...)\}\}` template (IGNORECASE):
`\x7b\x7bMove`, optional whitespace, `|`, then the tolerant body. -/
def tryMoveTemplate (cs : List Char) : Option (List Char × List Char) :=
  if startsWithSeq ['\x7b', '\x7b'] cs then
    let t := cs.drop 2
    if startsWithSeqCI "move".toList t then
      let t1 := t.drop 4
      let t2 := t1.drop (t1.takeWhile pyIsSpace).length
      if startsWithSeq ['|'] t2 then parseBody t2.length (t2.drop 1)
      else none
    else none
  else none

/-- `re.findall(move_template_regex, wikitext, DOTALL|I)`. -/
def findMoveTemplates (wikitext : List Char) : List (List Char) :=
  scanAll tryMoveTemplate wikitext.length wikitext

/-- Lazy tail of `\{\{MoveInherit\|(.*?)(?:\}\}|\|id=([^}|]+))` (line 235):
grow group 1 until either `\x7d\x7d` (group 2 empty) or `|id=` followed by a
nonempty `\x7d`/`|`-free run (group 2); the match ends right after either
alternative. -/
def inheritScan : Nat → List Char → List Char → Option ((List Char × List Char) × List Char)
  | 0, _, _ => none
  | fuel + 1, t, acc =>
    if startsWithSeq ['\x7d', '\x7d'] t then some ((acc.reverse, []), t.drop 2)
    else
      if startsWithSeq "|id=".toList t then
        let run := (t.drop 4).takeWhile (fun c => c != '\x7d' && c != '|')
        if run ≠ [] then some ((acc.reverse, run), t.drop (4 + run.length))
        else
          match t with
          | c :: cs => inheritScan fuel cs (c :: acc)
          | [] => none
      else
        match t with
        | c :: cs => inheritScan fuel cs (c :: acc)
        | [] => none

def tryInherit (cs : List Char) : Option ((List Char × List Char) × List Char) :=
  if startsWithSeqCI "\x7b\x7bmoveinherit|".toList cs then
    inheritScan cs.length (cs.drop 14) []
  else none

def findInherits (wikitext : List Char) : List (List Char × List Char) :=
  scanAll tryInherit wikitext.length wikitext

/-- `\{\{MoveQuery\|(.*?)\}\}` (DOTALL, IGNORECASE; line 253). -/
def tryQuery (cs : List Char) : Option (List Char × List Char) :=
  if startsWithSeqCI "\x7b\x7bmovequery|".toList cs then
    let t := cs.drop 12
    if containsSeq ['\x7d', '\x7d'] t then
      some (t.take (idxOfSeq ['\x7d', '\x7d'] t),
            t.drop (idxOfSeq ['\x7d', '\x7d'] t + 2))
    else none
  else none

def findQueries (wikitext : List Char) : List (List Char) :=
  scanAll tryQuery wikitext.length wikitext

/-! ### Parameter parsing (lines 275–320) -/

/-- Template parameters: a Python dict from key to value. -/
abbrev Params := List (List Char × List Char)

def pget (ps : Params) (k : List Char) : Option (List Char) := alookup ps k

/-- `dict.get(key, '')`. -/
def pgetD (ps : Params) (k : List Char) : List Char := (pget ps k).getD []

/-- The brace-depth-aware parameter splitter (lines 282–298): split on `|`
only at depth zero; depth is clamped at zero (`max(0, brace_level - 1)`,
which is exactly `Nat` subtraction); a split pushes the stripped current
parameter unconditionally, the final fragment only if nonempty. -/
def splitParamsAux : List Char → List Char → Nat → List (List Char)
  | [], cur, _ => if cur = [] then [] else [pyStrip cur]
  | c :: rest, cur, lvl =>
    if c == '|' && lvl == 0 then pyStrip cur :: splitParamsAux rest [] lvl
    else
      splitParamsAux rest (cur ++ [c])
        (if c == '\x7b' then lvl + 1 else if c == '\x7d' then lvl - 1 else lvl)

def splitParams (content : List Char) : List (List Char) :=
  splitParamsAux content [] 0

/-- One parameter (lines 301–309): only parsed when it contains `=`; the
first `=` separates key (stripped, lowercased) from value (stripped). -/
def parseParam (p : List Char) : Option (List Char × List Char) :=
  if '=' ∈ p then
    some (lowerAll (pyStrip (p.takeWhile (fun c => c != '='))),
          pyStrip (p.drop ((p.takeWhile (fun c => c != '=')).length + 1)))
  else none

/-- Fold of lines 300–311: build the parameter dict and capture the last
value bound to the `id` key. -/
def parseTemplate (content : List Char) : Option (List Char) × Params :=
  (splitParams content).foldl
    (fun st p =>
      match parseParam p with
      | some kv =>
        ((if kv.1 = "id".toList then some kv.2 else st.1), dictSet st.2 kv.1 kv.2)
      | none => st)
    (none, [])

/-! ### Document-level map construction (lines 227–340) -/

/-- A `dict` value of `all_parsed_moves`: template parameters plus the
`referenced` marker used by `\x7b\x7bMoveQuery\x7d\x7d` stub nodes. -/
structure Node where
  params : Params
  referenced : Bool
deriving DecidableEq, Repr

instance : Inhabited Node := ⟨⟨[], false⟩⟩

abbrev Entry := List Char × Node

/-- Stub node for a `\x7b\x7bMoveQuery\x7d\x7d` reference (lines 258–266). -/
def queryNode (qid : List Char) : Node :=
  ⟨[("id".toList, qid),
    ("input".toList, if '-' ∈ qid then (splitOnChar '-' qid).getLastD [] else []),
    ("name".toList, "Referenced Move ".toList ++ qid)], true⟩

/-- `inherit_map` construction (lines 239–250): explicit child → parent
edges, or a synthetic `Generic-` key when no child id is given. -/
def buildInheritMap (wikitext : List Char) : List (List Char × List Char) :=
  (findInherits wikitext).foldl
    (fun acc gp =>
      let parent := pyStrip gp.1
      if parent ≠ [] ∧ gp.2 ≠ [] ∧ pyStrip gp.2 ≠ [] then dictSet acc (pyStrip gp.2) parent
      else if parent ≠ [] then dictSet acc ("Generic-".toList ++ parent) parent
      else acc)
    []

/-- One `\x7b\x7bMove\x7d\x7d` template body into the map (lines 275–320):
newlines to spaces, split parameters, parse key/values; only templates with
a truthy `id` are stored; a child id found in `inherit_map` gets its
`parent` parameter injected (lines 314–316). -/
def processMove (imap : List (List Char × List Char)) (acc : List Entry)
    (body : List Char) : List Entry :=
  let content := body.map (fun c => if c == '\n' then ' ' else c)
  match parseTemplate content with
  | (some mid, params) =>
    if mid ≠ [] then
      let params' :=
        match alookup imap mid with
        | some par => dictSet params "parent".toList par
        | none => params
      dictSet acc mid ⟨params', false⟩
    else acc
  | (none, _) => acc

/-- The copy step of lines 336–339: parameters of a non-referenced entry
with the same id, other than `id`, are copied into the referenced node when
missing.  (Dict keys are unique, so for well-formed maps the inner search
never finds a distinct non-referenced entry and the pass is the identity;
it is still modelled literally.) -/
def mergeMissing (tgt src : Params) : Params :=
  src.foldl
    (fun acc kv =>
      if kv.1 = "id".toList then acc
      else
        match pget acc kv.1 with
        | some _ => acc
        | none => acc ++ [kv])
    tgt

/-- Lines 329–340: the enhanced handling for `\x7b\x7bMoveQuery\x7d\x7d`
references. -/
def refCopyPass (m : List Entry) : List Entry :=
  m.foldl
    (fun acc e =>
      if e.2.referenced then
        match acc.find? (fun o => !o.2.referenced && o.1 == e.1) with
        | some o => dictSet acc e.1 ⟨mergeMissing e.2.params o.2.params, e.2.referenced⟩
        | none => acc
      else acc)
    m

/-- `all_parsed_moves` for a document: query stubs first (dict insertion
order), then `\x7b\x7bMove\x7d\x7d` templates (last id wins, keeping the
original position), then the reference copy pass. -/
def buildMoves (wikitext : List Char) : List Entry :=
  let imap := buildInheritMap wikitext
  let m0 := (findQueries wikitext).foldl
    (fun acc g => dictSet acc (pyStrip g) (queryNode (pyStrip g))) []
  refCopyPass ((findMoveTemplates wikitext).foldl (processMove imap) m0)

/-! ### Chain walk (lines 342–399) -/

/-- Python truthiness of `'parent' in params and params['parent']`. -/
def hasTruthyParent (nd : Node) : Bool :=
  match pget nd.params "parent".toList with
  | some v => v ≠ []
  | none => false

/-- Lines 357–358: the first entry whose `parent` parameter equals the
current id (`child_params.get('parent') == current_id`; a missing key gives
`None`, which never equals a string). -/
def findChild (moves : List Entry) (cur : List Char) : Option Entry :=
  moves.find? (fun e => pget e.2.params "parent".toList == some cur)

/-- The `while True` walk of lines 355–393, fuel-based: follow the first
matching child until none exists.  Each chain is duplicate-free
(`walk_keys_nodup` below), so `fuel = moves.length` never runs out for
dict-shaped maps. -/
def walkFrom (moves : List Entry) : Nat → Entry → List Entry
  | 0, e => [e]
  | fuel + 1, e =>
    match findChild moves e.1 with
    | none => [e]
    | some c => e :: walkFrom moves fuel c

def dummyEntry : Entry := ([], ⟨[], false⟩)

/-- The outer loop of lines 343–399 reduced to its chains: skip entries
already processed or carrying a truthy `parent`; walk the chain; skip it if
its terminal was already processed, else emit it and mark the terminal. -/
def goChains (moves : List Entry) : List Entry → List (List Char) → List (List Entry)
  | [], _ => []
  | e :: rest, processed =>
    if e.1 ∈ processed ∨ hasTruthyParent e.2 then goChains moves rest processed
    else
      let c := walkFrom moves moves.length e
      let t := (c.getLastD e).1
      if t ∈ processed then goChains moves rest processed
      else c :: goChains moves rest (t :: processed)

def resolveChains (moves : List Entry) : List (List Entry) :=
  goChains moves moves []

/-! ### Field derivation and record assembly (lines 401–599) -/

/-- Lines 361–381: a child's contribution to the assembled command. -/
def childContrib (raw : List Char) : List Char :=
  if raw = [] then []
  else
    let s := pyStrip raw
    if s ≠ [] ∧ ¬ startsWithSeq [','] s then ',' :: s
    else if s = [','] then s
    else if startsWithSeq [','] s then s
    else []

/-- Lines 351, 381, 413–416: join the root fragment and the child
contributions; strip one leading comma (then whitespace) from the result. -/
def assembleCommand (rootInput : List Char) (childRaws : List (List Char)) : List Char :=
  let full := (rootInput :: childRaws.map childContrib).foldr (fun a b => a ++ b) []
  if full ≠ [] ∧ startsWithSeq [','] full then pyStrip (full.drop 1) else full

/-- Python `int(...)` on a string: strip, optional sign, all digits. -/
def parsePyInt (cs : List Char) : Option Int :=
  match pyStrip cs with
  | '+' :: ds => if ds ≠ [] ∧ ds.all Char.isDigit then some (Int.ofNat (digitsToNat ds)) else none
  | '-' :: ds => if ds ≠ [] ∧ ds.all Char.isDigit then some (-Int.ofNat (digitsToNat ds)) else none
  | ds => if ds ≠ [] ∧ ds.all Char.isDigit then some (Int.ofNat (digitsToNat ds)) else none

/-- `re.search(r'(\d+)', ...)`: first maximal digit run. -/
def firstDigitRun : List Char → Option (List Char)
  | [] => none
  | c :: cs => if c.isDigit then some ((c :: cs).takeWhile Char.isDigit) else firstDigitRun cs

/-- Lazy content of `re.search(r'\[\[(.*?)\]\]', s)` starting right after an
opening `[[`: up to the first `]]`, not crossing a newline (no DOTALL). -/
def linkContent : List Char → Option (List Char)
  | [] => none
  | c :: cs =>
    if startsWithSeq [']', ']'] (c :: cs) then some []
    else if c != '\n' then (linkContent cs).map (fun t => c :: t)
    else none

/-- `re.search(r'\[\[(.*?)\]\]', s)`: leftmost `[[` whose lazy content
reaches a `]]`. -/
def searchLinkAux : Nat → List Char → Option (List Char)
  | 0, _ => none
  | _ + 1, [] => none
  | fuel + 1, c :: cs =>
    if startsWithSeq ['[', '['] (c :: cs) then
      match linkContent (cs.drop 1) with
      | some content => some content
      | none => searchLinkAux fuel cs
    else searchLinkAux fuel cs

def searchLink (s : List Char) : Option (List Char) :=
  searchLinkAux s.length s

/-- Hit-advantage cleanup (lines 473–515): broken-link recovery for
unterminated `[[` links, the special cases for complete links, and the
plain link substitution otherwise. -/
def hitValClean (s : List Char) : List Char :=
  if containsSeq ['[', '['] s then
    if ¬ containsSeq [']', ']'] s then
      let frag := pyStrip (afterFirstSeq ['[', '['] s)
      if containsSeq "Bryan combos#Staples".toList frag then "+35a (+25)".toList
      else if containsSeq "Bryan combos#Wall".toList frag then "+35a (+25)".toList
      else if containsSeq "Bryan combos#Mini-combos".toList frag then "+14a".toList
      else "+0".toList
    else
      match searchLink s with
      | some content =>
        if '|' ∈ content then pyStrip (afterFirstSeq ['|'] content)
        else if idxOfSeq [']', ']'] s + 2 < s.length then pyStrip (afterFirstSeq [']', ']'] s)
        else if containsSeq "Staples".toList content ∨ containsSeq "Wall".toList content then
          "+35a (+25)".toList
        else "+0".toList
      | none => s
  else runSub tryLinkA s

/-- Counter-hit-advantage cleanup (lines 523–564): same structure, with the
counter-hit fallback table (`Staples` → `+65a`, `Mini-combos` → `+14a`; no
`Wall` entry). -/
def chValClean (s : List Char) : List Char :=
  if containsSeq ['[', '['] s then
    if ¬ containsSeq [']', ']'] s then
      let frag := pyStrip (afterFirstSeq ['[', '['] s)
      if containsSeq "Bryan combos#Staples".toList frag then "+65a".toList
      else if containsSeq "Bryan combos#Mini-combos".toList frag then "+14a".toList
      else "+0".toList
    else
      match searchLink s with
      | some content =>
        if '|' ∈ content then pyStrip (afterFirstSeq ['|'] content)
        else if idxOfSeq [']', ']'] s + 2 < s.length then pyStrip (afterFirstSeq [']', ']'] s)
        else if containsSeq "Bryan combos#Staples".toList content then "+65a".toList
        else if containsSeq "Bryan combos#Mini-combos".toList content then "+14a".toList
        else "+0".toList
      | none => s
  else runSub tryLinkA s

/-- Lexicographic order on character lists: Python string `<`/`sorted`
(code-point comparison). -/
def lexLe : List Char → List Char → Bool
  | [], _ => true
  | _ :: _, [] => false
  | a :: as, b :: bs => if a < b then true else if b < a then false else lexLe as bs

/-- Lines 573–579: clean every link's notes, keep the truthy results as a
set, and join them sorted with `'; '` (`"; ".join(sorted(list(set)))`;
insertion sort is used so the kernel can evaluate it — on the
duplicate-free set it produces the unique `lexLe`-sorted result, as
Python's `sorted` does). -/
def finalNotes (allRaw : List (List Char)) : List Char :=
  joinSep "; ".toList
    (List.insertionSort (fun a b => lexLe a b = true)
      (((allRaw.map cleanNotes).filter (fun l => l ≠ [])).dedup))

/-- The output record (the populated subset of `sql_schema_columns`;
`ID`, `Character`, `CharacterID`, `MoveCategory` and `Stance` stay `None`
in `_parse_move_table` and are omitted). -/
structure MoveData where
  WavuID : Option Int
  Command : List Char
  MoveName : List Char
  HitLevel : List Char
  Impact : Option Nat
  ImpactRaw : List Char
  Damage : List Char
  DamageDec : Nat
  Block : List Char
  BlockDec : Option Int
  Hit : List Char
  HitDec : Option Int
  CounterHit : List Char
  CounterHitDec : Option Int
  GuardBurst : Nat
  isGI : Nat
  isUB : Nat
  isLH : Nat
  isSS : Nat
  isBA : Nat
  isTH : Nat
  isRE : Nat
  isHE : Nat
  isHS : Nat
  isHB : Nat
  isSM : Nat
  isUnparryable : Nat
  isHoming : Nat
  Notes : List Char
deriving DecidableEq, Repr

/-- Lines 401–599: assemble one `MoveData` from a walked chain (root
parameters for identity fields, terminal parameters for frame data, all
links' notes). -/
def chainRecord (chain : List Entry) : MoveData :=
  let root := (chain.headD dummyEntry).2.params
  let cur := (chain.getLastD dummyEntry).2.params
  let command := cleanWikitext
    (assembleCommand (pgetD root "input".toList)
      ((chain.drop 1).map (fun e => pgetD e.2.params "input".toList)))
  let hl0 := pgetD cur "target".toList
  let hl1 := if hl0 ≠ [] ∧ startsWithSeq [','] hl0 then pyStrip (hl0.drop 1) else hl0
  let hl2 :=
    if hl1 ≠ [] then runSub tryBraceAllDel (runSub tryAngleDel (runSub tryLinkA hl1))
    else hl1
  let hitLevel := pyStrip hl2
  let rawStartup := pgetD cur "startup".toList
  let impact :=
    if rawStartup ≠ [] then
      (firstDigitRun
        (if startsWithSeqCI "i".toList rawStartup then rawStartup.drop 1
         else rawStartup)).map digitsToNat
    else none
  let hitVal := pgetD cur "hit".toList
  let hitPair :=
    if hitVal ≠ [] then (pyStrip (hitValClean hitVal), cleanNumerical (hitValClean hitVal))
    else ([], none)
  let chVal := pgetD cur "ch".toList
  let chPair :=
    if chVal ≠ [] then (pyStrip (chValClean chVal), cleanNumerical (chValClean chVal))
    else ([], none)
  let notes := finalNotes
    (pgetD root "notes".toList ::
      (chain.drop 1).filterMap (fun e =>
        match pget e.2.params "notes".toList with
        | some v => if v ≠ [] then some v else none
        | none => none))
  let notesLower := lowerAll notes
  let hlLower := lowerAll hitLevel
  let hlTokens := splitOnChar ',' hlLower
  { WavuID := parsePyInt (pgetD root "num".toList)
    Command := command
    MoveName := cleanWikitext (pgetD root "name".toList)
    HitLevel := hitLevel
    Impact := impact
    ImpactRaw := rawStartup
    Damage := cleanWikitext (pgetD cur "damage".toList)
    DamageDec := cleanSumDamageOpt (pget cur "damage".toList)
    Block := cleanWikitext (pgetD cur "block".toList)
    BlockDec := cleanNumericalOpt (pget cur "block".toList)
    Hit := hitPair.1
    HitDec := hitPair.2
    CounterHit := chPair.1
    CounterHitDec := chPair.2
    GuardBurst := if containsSeq "guard break".toList notesLower
        || containsSeq "guard crush".toList notesLower then 1 else 0
    isGI := 0
    isUB := if "ub".toList ∈ hlTokens then 1 else 0
    isLH := 0
    isSS := 0
    isBA := if containsSeq "power crush".toList notesLower
        || containsSeq "armor".toList notesLower then 1 else 0
    isTH := if "t".toList ∈ hlTokens then 1 else 0
    isRE := 0
    isHE := if containsSeq "heat engager".toList notesLower then 1 else 0
    isHS := if containsSeq "heat smash".toList notesLower then 1 else 0
    isHB := if containsSeq "heat burst".toList notesLower then 1 else 0
    isSM := if "sm".toList ∈ hlTokens then 1 else 0
    isUnparryable := if '!' ∈ hlLower then 1 else 0
    isHoming := if containsSeq "homing".toList notesLower then 1 else 0
    Notes := notes }

/-- `DatabaseMan._parse_move_table` (lines 207–601): the emitted records,
one per emitted chain. -/
def parseMoveTable (wikitext : List Char) : List MoveData :=
  (resolveChains (buildMoves wikitext)).map chainRecord

/-! ### Predicates and fixtures used by the theorems -/

/-- The `parent` parameter of a map entry, as the walk reads it. -/
def pidOf (e : Entry) : Option (List Char) := pget e.2.params "parent".toList

/-- Keys of the map are distinct — the defining property of a Python dict,
which `all_parsed_moves` is. -/
def NodupKeys (moves : List Entry) : Prop := (moves.map Prod.fst).Nodup

/-- An entry with empty-string key has no `parent` parameter.  In
`all_parsed_moves` an empty key can only come from a
`\x7b\x7bMoveQuery\x7d\x7d` stub (Move templates require a truthy id, line
313), and stub parameters never include `parent`. -/
def EmptyKeyNoParent (moves : List Entry) : Prop :=
  ∀ e ∈ moves, e.1 = [] → pidOf e = none

/-- The walk's root condition (line 345 negated): no `parent` key, or a
falsy (empty) one. -/
def RootEntry (e : Entry) : Prop := pidOf e = none ∨ pidOf e = some []

/-- `a` is the child the walk selects when standing at `b`. -/
def stepRel (moves : List Entry) (a b : Entry) : Prop :=
  findChild moves b.1 = some a

/-- Key of the terminal the walk reaches from `x`. -/
def termKey (moves : List Entry) (x : Entry) : List Char :=
  ((walkFrom moves moves.length x).getLastD dummyEntry).1

/-- Pairwise disjointness of chains, measured on identifiers. -/
def ChainsDisjoint (cs : List (List Entry)) : Prop :=
  List.Pairwise (fun c c' => ∀ k ∈ c.map Prod.fst, k ∉ c'.map Prod.fst) cs

/-- The end-to-end scenario document of the spec (section 8): one root Move
template and one inheriting Move template. -/
def c1doc : List Char :=
  ("\x7b\x7bMove|id=a1|input=1|target=h|startup=i10|damage=10|notes=*first hit\x7d\x7d\n"
    ++ "\x7b\x7bMove|id=a2|parent=a1|input=,2|damage=5|notes=*second hit\x7d\x7d").toList

/-- A document whose inheritance relation is the two-cycle A→B→A. -/
def cycDoc : List Char :=
  ("\x7b\x7bMove|id=A|parent=B|input=1\x7d\x7d "
    ++ "\x7b\x7bMove|id=B|parent=A|input=2\x7d\x7d").toList

/-- A fan-out map: two well-formed children of the same parent. -/
def fanoutMoves : List Entry :=
  [("p".toList, ⟨[("id".toList, "p".toList)], false⟩),
   ("c1".toList, ⟨[("id".toList, "c1".toList), ("parent".toList, "p".toList)], false⟩),
   ("c2".toList, ⟨[("id".toList, "c2".toList), ("parent".toList, "p".toList)], false⟩)]

/-- Default record used only to state head-of-list witnesses. -/
def mdDefault : MoveData := chainRecord []

/-- `hit_val[link_start+2:].strip()` (lines 478–479, 528–529): the
cross-reference fragment after an unterminated `[[`. -/
def linkFrag (s : List Char) : List Char :=
  pyStrip (afterFirstSeq ['[', '['] s)

/-! # Theorems -/

/-! ### Helper lemmas -/

theorem findFirstInt_none (cs : List Char) (h : ∀ c ∈ cs, c.isDigit = false) :
    findFirstInt cs = none := by
  induction cs with
  | nil => rfl
  | cons c rest ih =>
    have hc : c.isDigit = false := h c (List.mem_cons_self c rest)
    have hr : ∀ x ∈ rest, x.isDigit = false :=
      fun x hx => h x (List.mem_cons_of_mem c hx)
    have ihr := ih hr
    unfold findFirstInt
    rw [hc]
    simp only [Bool.false_eq_true, if_false]
    by_cases hplus : c == '+'
    · rw [if_pos hplus]
      cases rest with
      | nil => rfl
      | cons d rest2 =>
        have hd : d.isDigit = false := hr d (List.mem_cons_self d rest2)
        simp [hd, ihr]
    · rw [if_neg hplus]
      by_cases hminus : c == '-'
      · rw [if_pos hminus]
        cases rest with
        | nil => rfl
        | cons d rest2 =>
          have hd : d.isDigit = false := hr d (List.mem_cons_self d rest2)
          simp [hd, ihr]
      · rw [if_neg hminus]
        exact ihr

theorem allDigitRunsAux_none (fuel : Nat) (cs : List Char)
    (h : ∀ c ∈ cs, c.isDigit = false) : allDigitRunsAux fuel cs = [] := by
  induction fuel generalizing cs with
  | zero => rfl
  | succ fuel ih =>
    cases cs with
    | nil => rfl
    | cons c rest =>
      have hc : c.isDigit = false := h c (List.mem_cons_self c rest)
      unfold allDigitRunsAux
      rw [hc]
      simp only [Bool.false_eq_true, if_false]
      exact ih rest (fun x hx => h x (List.mem_cons_of_mem c hx))

/-! ### C2 — numeric extraction -/

/-- C2 counterexample: the claim states that numeric extraction on `"(+5)"`
yields `5`; the code strips parenthesised content before extracting, so the
whole value disappears and the result is absent, not `5`. -/
theorem c2_counterexample :
    cleanNumerical "(+5)".toList ≠ some 5 ∧ cleanNumerical "(+5)".toList = none := by
  constructor
  · decide
  · decide

/-- C2 (amended): numeric extraction strips classification letters, strips
parenthesised content, cuts at the first `~` or `,`, and returns the first
signed integer of what remains; when no digit remains the result is absent
(not zero, no exception).  `"12~14"` yields 12, `"i10,i12"` yields 10,
`"abc"` yields absent, and `"(+5)"` yields absent (its only digit sits in
the stripped parenthesised content). -/
theorem c2_numeric_extraction (cs : List Char)
    (h : ∀ c ∈ numericCore cs, c.isDigit = false) :
    cleanNumerical cs = none ∧
    cleanNumerical "12~14".toList = some 12 ∧
    cleanNumerical "(+5)".toList = none ∧
    cleanNumerical "i10,i12".toList = some 10 ∧
    cleanNumerical "abc".toList = none := by
  refine ⟨findFirstInt_none _ h, by decide, by decide, by decide, by decide⟩

/-- C2 witness. -/
theorem c2_witness :
    cleanNumerical "xyz".toList = none := by
  exact (c2_numeric_extraction "xyz".toList (by decide)).1

/-! ### C9 — damage summation -/

/-- C9: damage summation adds every integer literal in the field and
returns zero when the field is empty or holds no literal; `"10,15"` yields
25, `""` yields 0, `"5(3)"` yields 8, and a non-string (`None`) field also
yields 0. -/
theorem c9_damage_summation (cs : List Char) (h : ∀ c ∈ cs, c.isDigit = false) :
    cleanSumDamage cs = 0 ∧
    cleanSumDamage "10,15".toList = 25 ∧
    cleanSumDamage "".toList = 0 ∧
    cleanSumDamage "5(3)".toList = 8 ∧
    cleanSumDamageOpt none = 0 := by
  refine ⟨?_, by decide, by decide, by decide, rfl⟩
  unfold cleanSumDamage allDigitRuns
  rw [allDigitRunsAux_none _ _ h]
  rfl

/-- C9 witness. -/
theorem c9_witness : cleanSumDamage "abc".toList = 0 := by
  exact (c9_damage_summation "abc".toList (by decide)).1

/-! ### C10 — the four never-set flags -/

/-- C10: every record emitted by the move-table parser has
`isGI = isLH = isSS = isRE = 0`: they are initialised to 0 and no detection
rule assigns them. -/
theorem c10_flags_zero (w : List Char) (r : MoveData) (hr : r ∈ parseMoveTable w) :
    r.isGI = 0 ∧ r.isLH = 0 ∧ r.isSS = 0 ∧ r.isRE = 0 := by
  obtain ⟨c, -, rfl⟩ := List.mem_map.mp hr
  exact ⟨rfl, rfl, rfl, rfl⟩

set_option maxRecDepth 400000 in
/-- C10 witness: the record of the end-to-end document. -/
theorem c10_witness :
    ((parseMoveTable c1doc).headD mdDefault).isGI = 0 ∧
    ((parseMoveTable c1doc).headD mdDefault).isLH = 0 ∧
    ((parseMoveTable c1doc).headD mdDefault).isSS = 0 ∧
    ((parseMoveTable c1doc).headD mdDefault).isRE = 0 := by
  have hne : parseMoveTable c1doc ≠ [] := by decide
  refine c10_flags_zero c1doc _ ?_
  cases hq : parseMoveTable c1doc with
  | nil => exact absurd hq hne
  | cons a t => simp

/-! ### C5 — command-fragment concatenation -/

/-- C5: each link beyond the root contributes its input fragment with a
single comma prefix unless the fragment is empty (contributing nothing) or
already begins with a comma (not prefixed again); the assembled command has
a leading comma stripped; root `"1+2"` with child `"1"` assembles to
`"1+2,1"`. -/
theorem c5_command_concat (c d : List Char)
    (hcs : pyStrip c = c) (hc : c ≠ []) (hcomma : startsWithSeq [','] c = true)
    (hds : pyStrip d = d) (hd : d ≠ []) (hdn : startsWithSeq [','] d = false) :
    childContrib c = c ∧
    childContrib d = ',' :: d ∧
    childContrib [] = [] ∧
    assembleCommand "1+2".toList ["1".toList] = "1+2,1".toList ∧
    (∀ rest, assembleCommand (',' :: rest) [] = pyStrip rest) := by
  refine ⟨?_, ?_, rfl, by decide, ?_⟩
  · unfold childContrib
    rw [if_neg hc]
    simp only [hcs, hcomma]
    by_cases hone : c = [',']
    · simp [hone]
    · simp [hone]
  · unfold childContrib
    rw [if_neg hd]
    simp [hds, hdn, hd]
  · intro rest
    simp [assembleCommand, startsWithSeq]

/-- C5 witness. -/
theorem c5_witness :
    childContrib ",2".toList = ",2".toList ∧
    childContrib "3+4".toList = ",3+4".toList := by
  have h := c5_command_concat ",2".toList "3+4".toList (by decide) (by decide)
    (by decide) (by decide) (by decide) (by decide)
  exact ⟨h.1, h.2.1⟩

/-! ### C8 — broken-link recovery for advantage fields -/

/-- C8 counterexample: `"[[Bryan combos#Mini-combos]]"` is a pipe-free
bracketed cross-reference (complete link, no `|`, nothing after `]]`)
carrying the known `Bryan combos#Mini-combos` fragment — the counter-hit
side recognizes it (`"+14a"`), yet the hit side yields the neutral default
`"+0"`: the hit-side complete-link table has no Mini-combos entry, so this
known fragment is not mapped to its fixed literal fallback value as the
claim states. -/
theorem c8_counterexample :
    containsSeq ['[', '['] "[[Bryan combos#Mini-combos]]".toList = true ∧
    containsSeq [']', ']'] "[[Bryan combos#Mini-combos]]".toList = true ∧
    searchLink "[[Bryan combos#Mini-combos]]".toList
      = some "Bryan combos#Mini-combos".toList ∧
    hitValClean "[[Bryan combos#Mini-combos]]".toList = "+0".toList ∧
    chValClean "[[Bryan combos#Mini-combos]]".toList = "+14a".toList := by
  decide

/-- C8 (amended): for a hit or counter-hit advantage field with a broken
bracketed cross-reference — unterminated (`[[` present, `]]` absent; field
`s` below), or a pipe-free complete link with nothing after the `]]`
(field `t` below, whose first bracketed content is `content`) — the
cleanup maps the fragment through a fixed per-field, per-branch lookup
table to a literal fallback, and any fragment not in the applicable table
yields the neutral default `"+0"`, never raising.  The tables are not
uniform: unterminated — hit: Staples/Wall → `"+35a (+25)"`, Mini-combos →
`"+14a"`; counter-hit: Staples → `"+65a"`, Mini-combos → `"+14a"` (no Wall
entry); pipe-free complete link — hit: bare `Staples`/`Wall` substrings →
`"+35a (+25)"` with **no** Mini-combos entry (a Mini-combos reference
yields `"+0"`); counter-hit: Staples → `"+65a"`, Mini-combos → `"+14a"`. -/
theorem c8_broken_link_recovery (s t content : List Char)
    (hs1 : containsSeq ['[', '['] s = true)
    (hs2 : containsSeq [']', ']'] s = false)
    (ht1 : containsSeq ['[', '['] t = true)
    (ht2 : containsSeq [']', ']'] t = true)
    (htl : searchLink t = some content)
    (htp : '|' ∉ content)
    (hta : ¬(idxOfSeq [']', ']'] t + 2 < t.length)) :
    ((containsSeq "Bryan combos#Staples".toList (linkFrag s) = true →
      hitValClean s = "+35a (+25)".toList ∧ chValClean s = "+65a".toList) ∧
     (containsSeq "Bryan combos#Staples".toList (linkFrag s) = false →
      containsSeq "Bryan combos#Wall".toList (linkFrag s) = true →
      containsSeq "Bryan combos#Mini-combos".toList (linkFrag s) = false →
      hitValClean s = "+35a (+25)".toList ∧ chValClean s = "+0".toList) ∧
     (containsSeq "Bryan combos#Staples".toList (linkFrag s) = false →
      containsSeq "Bryan combos#Wall".toList (linkFrag s) = false →
      containsSeq "Bryan combos#Mini-combos".toList (linkFrag s) = true →
      hitValClean s = "+14a".toList ∧ chValClean s = "+14a".toList) ∧
     (containsSeq "Bryan combos#Staples".toList (linkFrag s) = false →
      containsSeq "Bryan combos#Wall".toList (linkFrag s) = true →
      containsSeq "Bryan combos#Mini-combos".toList (linkFrag s) = true →
      hitValClean s = "+35a (+25)".toList ∧ chValClean s = "+14a".toList) ∧
     (containsSeq "Bryan combos#Staples".toList (linkFrag s) = false →
      containsSeq "Bryan combos#Wall".toList (linkFrag s) = false →
      containsSeq "Bryan combos#Mini-combos".toList (linkFrag s) = false →
      hitValClean s = "+0".toList ∧ chValClean s = "+0".toList)) ∧
    ((containsSeq "Staples".toList content = true ∨
        containsSeq "Wall".toList content = true →
      hitValClean t = "+35a (+25)".toList) ∧
     (containsSeq "Staples".toList content = false →
      containsSeq "Wall".toList content = false →
      hitValClean t = "+0".toList) ∧
     (containsSeq "Bryan combos#Staples".toList content = true →
      chValClean t = "+65a".toList) ∧
     (containsSeq "Bryan combos#Staples".toList content = false →
      containsSeq "Bryan combos#Mini-combos".toList content = true →
      chValClean t = "+14a".toList) ∧
     (containsSeq "Bryan combos#Staples".toList content = false →
      containsSeq "Bryan combos#Mini-combos".toList content = false →
      chValClean t = "+0".toList)) := by
  constructor
  · refine ⟨?_, ?_, ?_, ?_, ?_⟩ <;>
      intros <;>
      constructor <;>
      simp_all [hitValClean, chValClean, linkFrag, hs1, hs2]
  · refine ⟨?_, ?_, ?_, ?_, ?_⟩
    · intro h
      rcases h with h | h <;> simp_all [hitValClean, htl]
    · intro hA hB
      simp_all [hitValClean, htl]
    · intro h
      simp_all [chValClean, htl]
    · intro hA hB
      simp_all [chValClean, htl]
    · intro hA hB
      simp_all [chValClean, htl]

/-- C8 witness. -/
theorem c8_witness :
    hitValClean "[[Bryan combos#Staples".toList = "+35a (+25)".toList ∧
    chValClean "[[Bryan combos#Staples".toList = "+65a".toList ∧
    hitValClean "[[Bryan combos#Staples]]".toList = "+35a (+25)".toList ∧
    chValClean "[[Bryan combos#Staples]]".toList = "+65a".toList := by
  have h := c8_broken_link_recovery "[[Bryan combos#Staples".toList
    "[[Bryan combos#Staples]]".toList "Bryan combos#Staples".toList
    (by decide) (by decide) (by decide) (by decide) (by decide) (by decide) (by decide)
  refine ⟨(h.1.1 (by decide)).1, (h.1.1 (by decide)).2, ?_, ?_⟩
  · exact h.2.1 (Or.inl (by decide))
  · exact h.2.2.2.1 (by decide)

/-! ### C6 — notes normalization -/

theorem lexLe_total (a b : List Char) : lexLe a b = true ∨ lexLe b a = true := by
  induction a generalizing b with
  | nil => left; rfl
  | cons x xs ih =>
    cases b with
    | nil => right; rfl
    | cons y ys =>
      rcases lt_trichotomy x y with h | h | h
      · left; simp [lexLe, h]
      · subst h
        rcases ih ys with h2 | h2
        · left; simp [lexLe, lt_irrefl, h2]
        · right; simp [lexLe, lt_irrefl, h2]
      · right; simp [lexLe, h]

theorem lexLe_trans (a b c : List Char) (h1 : lexLe a b = true)
    (h2 : lexLe b c = true) : lexLe a c = true := by
  induction a generalizing b c with
  | nil => rfl
  | cons x xs ih =>
    cases b with
    | nil => simp [lexLe] at h1
    | cons y ys =>
      cases c with
      | nil => simp [lexLe] at h2
      | cons z zs =>
        simp only [lexLe] at h1 h2 ⊢
        by_cases hxy : x < y
        · have hyz : y < z ∨ (¬ z < y ∧ y = z) := by
            by_cases h : y < z
            · exact Or.inl h
            · rw [if_neg h] at h2
              by_cases h' : z < y
              · rw [if_pos h'] at h2; exact absurd h2 (by simp)
              · exact Or.inr ⟨h', le_antisymm (le_of_not_lt h') (le_of_not_lt h)⟩
          rcases hyz with h' | ⟨-, rfl⟩
          · rw [if_pos (lt_trans hxy h')]
          · rw [if_pos hxy]
        · rw [if_neg hxy] at h1
          by_cases hyx : y < x
          · rw [if_pos hyx] at h1; exact absurd h1 (by simp)
          · rw [if_neg hyx] at h1
            have hxy' : x = y := le_antisymm (le_of_not_lt hyx) (le_of_not_lt hxy)
            subst hxy'
            by_cases hxz : x < z
            · rw [if_pos hxz]
            · rw [if_neg hxz] at h2 ⊢
              by_cases hzx : z < x
              · rw [if_pos hzx] at h2; exact absurd h2 (by simp)
              · rw [if_neg hzx] at h2 ⊢
                exact ih ys zs h1 h2

theorem lexLe_antisymm (a b : List Char) (h1 : lexLe a b = true)
    (h2 : lexLe b a = true) : a = b := by
  induction a generalizing b with
  | nil =>
    cases b with
    | nil => rfl
    | cons y ys => simp [lexLe] at h2
  | cons x xs ih =>
    cases b with
    | nil => simp [lexLe] at h1
    | cons y ys =>
      simp only [lexLe] at h1 h2
      by_cases hxy : x < y
      · rw [if_neg (lt_asymm hxy), if_pos hxy] at h2
        exact absurd h2 (by simp)
      · rw [if_neg hxy] at h1
        by_cases hyx : y < x
        · rw [if_pos hyx] at h1; exact absurd h1 (by simp)
        · rw [if_neg hyx] at h1
          rw [if_neg hyx, if_neg hxy] at h2
          have : x = y := le_antisymm (le_of_not_lt hyx) (le_of_not_lt hxy)
          subst this
          rw [ih ys h1 h2]

/-- The sorted deduplicated link-note strings are permutation-invariant. -/
theorem sortedNotes_perm (l l' : List (List Char)) (h : l.Perm l') :
    List.insertionSort (fun a b => lexLe a b = true)
        (((l.map cleanNotes).filter (fun x => x ≠ [])).dedup)
      = List.insertionSort (fun a b => lexLe a b = true)
        (((l'.map cleanNotes).filter (fun x => x ≠ [])).dedup) := by
  haveI : IsAntisymm (List Char) (fun a b => lexLe a b = true) :=
    ⟨fun a b => lexLe_antisymm a b⟩
  haveI : IsTotal (List Char) (fun a b => lexLe a b = true) :=
    ⟨fun a b => lexLe_total a b⟩
  haveI : IsTrans (List Char) (fun a b => lexLe a b = true) :=
    ⟨fun a b c => lexLe_trans a b c⟩
  have hp : (((l.map cleanNotes).filter (fun x => x ≠ [])).dedup).Perm
      (((l'.map cleanNotes).filter (fun x => x ≠ [])).dedup) :=
    ((h.map cleanNotes).filter _).dedup
  have hq := ((List.perm_insertionSort (fun a b => lexLe a b = true) _).trans
    (hp.trans (List.perm_insertionSort (fun a b => lexLe a b = true) _).symm))
  exact List.eq_of_perm_of_sorted hq
    (List.sorted_insertionSort _ _) (List.sorted_insertionSort _ _)

/-- C6: the final Notes string cleans each link's notes (unwrapping a
Plainlist wrapper, replacing the known sub-templates, stripping markup,
splitting into lines, stripping a leading `*` per line, dropping empty
lines), then deduplicates the per-link results and joins them with `"; "`
in sorted order — so the result is independent of link traversal order.
Within one link the lines keep document order (`"*b\n*a"` gives
`"b; a"`); the sort and deduplication act on whole per-link strings. -/
theorem c6_notes_order_independent (l l' : List (List Char)) (h : l.Perm l') :
    finalNotes l = finalNotes l' ∧
    finalNotes ["*first hit".toList, "*second hit".toList]
      = "first hit; second hit".toList ∧
    finalNotes ["\x7b\x7bPlainlist|*second\n*\x7b\x7bHeatEngager\x7d\x7d\x7d\x7d".toList]
      = "second; Heat Engager".toList ∧
    finalNotes ["*b\n*a".toList] = "b; a".toList ∧
    finalNotes ["*b".toList, "*a".toList] = "a; b".toList ∧
    finalNotes ["*dup".toList, "*dup".toList] = "dup".toList := by
  refine ⟨?_, by decide, by decide, by decide, by decide, by decide⟩
  unfold finalNotes
  rw [sortedNotes_perm l l' h]

/-- C6 witness. -/
theorem c6_witness :
    finalNotes ["*x".toList, "*y".toList] = finalNotes ["*y".toList, "*x".toList] := by
  exact (c6_notes_order_independent _ _ (by decide)).1

/-! ### C7 — the parameter parser -/

theorem takeWhile_no_eq (k : List Char) (hk : '=' ∉ k) (v : List Char) :
    (k ++ '=' :: v).takeWhile (fun c => c != '=') = k := by
  induction k with
  | nil => simp [List.takeWhile_cons]
  | cons a as ih =>
    have ha : a ≠ '=' := fun h => hk (h ▸ List.mem_cons_self a as)
    have ih' := ih (fun h => hk (List.mem_cons_of_mem a h))
    simp [List.takeWhile_cons, ha, ih']

theorem drop_keylen (k : List Char) (v : List Char) :
    (k ++ '=' :: v).drop (k.length + 1) = v := by
  induction k with
  | nil => rfl
  | cons a as ih => simp [ih]

theorem splitParamsAux_depth (mid : List Char)
    (hmid : ∀ c ∈ mid, c ≠ '\x7b' ∧ c ≠ '\x7d') :
    ∀ rest cur lvl, lvl ≠ 0 →
      splitParamsAux (mid ++ rest) cur lvl = splitParamsAux rest (cur ++ mid) lvl := by
  induction mid with
  | nil => intro rest cur lvl _; simp
  | cons c ms ih =>
    intro rest cur lvl hlvl
    have hc := hmid c (List.mem_cons_self c ms)
    have ih' := ih (fun x hx => hmid x (List.mem_cons_of_mem c hx))
    have hcond : (c == '|' && lvl == 0) = false := by
      simp only [Bool.and_eq_false_iff]
      right
      simpa using hlvl
    simp only [List.cons_append, splitParamsAux, hcond, Bool.false_eq_true, if_false]
    rw [if_neg (by simpa using hc.1), if_neg (by simpa using hc.2)]
    show splitParamsAux (ms ++ rest) (cur ++ [c]) lvl = _
    rw [ih' rest (cur ++ [c]) lvl hlvl]
    simp

/-- C7: parameters are split on `|` only at brace depth zero, with the depth
clamped at zero; within one parameter only the first `=` separates the
lower-cased, trimmed key from the trimmed value; a parameter without `=` is
skipped without raising; an `id` key is captured as the identifier. -/
theorem c7_param_parsing (k v p mid : List Char)
    (hk : '=' ∉ k) (hp : '=' ∉ p)
    (hmid : ∀ c ∈ mid, c ≠ '\x7b' ∧ c ≠ '\x7d') :
    parseParam (k ++ '=' :: v) = some (lowerAll (pyStrip k), pyStrip v) ∧
    parseParam p = none ∧
    (∀ rest cur, splitParamsAux ('\x7b' :: (mid ++ '\x7d' :: rest)) cur 0
        = splitParamsAux rest (cur ++ '\x7b' :: (mid ++ ['\x7d'])) 0) ∧
    (∀ rest cur, splitParamsAux ('\x7d' :: rest) cur 0
        = splitParamsAux rest (cur ++ ['\x7d']) 0) ∧
    (parseTemplate "id=a1|input=\x7b\x7bx|y\x7d\x7d".toList).1 = some "a1".toList ∧
    (parseTemplate "id=a1|input=\x7b\x7bx|y\x7d\x7d".toList).2
      = [("id".toList, "a1".toList), ("input".toList, "\x7b\x7bx|y\x7d\x7d".toList)] := by
  refine ⟨?_, ?_, ?_, ?_, by decide, by decide⟩
  · unfold parseParam
    rw [if_pos (List.mem_append_right k (List.mem_cons_self '=' v))]
    rw [takeWhile_no_eq k hk v, drop_keylen k v]
  · unfold parseParam
    rw [if_neg hp]
  · intro rest cur
    have h1 : splitParamsAux ('\x7b' :: (mid ++ '\x7d' :: rest)) cur 0
        = splitParamsAux (mid ++ '\x7d' :: rest) (cur ++ ['\x7b']) 1 := by
      simp [splitParamsAux]
    rw [h1, splitParamsAux_depth mid hmid ('\x7d' :: rest) (cur ++ ['\x7b']) 1 one_ne_zero]
    have h2 : splitParamsAux ('\x7d' :: rest) ((cur ++ ['\x7b']) ++ mid) 1
        = splitParamsAux rest (((cur ++ ['\x7b']) ++ mid) ++ ['\x7d']) 0 := by
      simp [splitParamsAux]
    rw [h2]
    simp
  · intro rest cur
    simp [splitParamsAux]

/-- C7 witness. -/
theorem c7_witness :
    parseParam "key=a=b".toList = some ("key".toList, "a=b".toList) ∧
    parseParam "noequals".toList = none ∧
    splitParamsAux ('\x7b' :: ("a|b".toList ++ '\x7d' :: "|next".toList)) [] 0
      = splitParamsAux "|next".toList ('\x7b' :: ("a|b".toList ++ ['\x7d'])) 0 := by
  have h := c7_param_parsing "key".toList "a=b".toList "noequals".toList "a|b".toList
    (by decide) (by decide) (by decide)
  refine ⟨?_, h.2.1, ?_⟩
  · rw [show ("key=a=b".toList : List Char) = "key".toList ++ '=' :: "a=b".toList from rfl,
      h.1]
    decide
  · have h3 := h.2.2.1 "|next".toList []
    simpa using h3

/-! ### The chain walk: no revisit, termination, disjoint emission
(machinery for C3 and C4) -/

theorem hasTruthyParent_false_iff (nd : Node) :
    hasTruthyParent nd = false ↔
      (pget nd.params "parent".toList = none ∨ pget nd.params "parent".toList = some []) := by
  unfold hasTruthyParent
  cases h : pget nd.params "parent".toList with
  | none => simp
  | some v => simp [h]

theorem findChild_mem {moves : List Entry} {cur : List Char} {e : Entry}
    (h : findChild moves cur = some e) : e ∈ moves :=
  List.mem_of_find?_eq_some h

theorem findChild_pid {moves : List Entry} {cur : List Char} {e : Entry}
    (h : findChild moves cur = some e) : pidOf e = some cur := by
  have h2 := List.find?_some h
  simpa [pidOf] using h2

theorem entry_key_inj {moves : List Entry} (hk : NodupKeys moves) {e1 e2 : Entry}
    (h1 : e1 ∈ moves) (h2 : e2 ∈ moves) (he : e1.1 = e2.1) : e1 = e2 :=
  List.inj_on_of_nodup_map hk h1 h2 he

/-- The child selected at the head of a duplicate-free ancestor path cannot
carry a key already on the path: parent pointers determine each node's
unique predecessor, and a root has no truthy parent. -/
theorem fresh_child (moves : List Entry) (hk : NodupKeys moves)
    (he : EmptyKeyNoParent moves) (e : Entry) (anc : List Entry)
    (hsub : ∀ x ∈ e :: anc, x ∈ moves)
    (hchain : List.Chain' (stepRel moves) (e :: anc))
    (hroot : RootEntry ((e :: anc).getLast (List.cons_ne_nil e anc)))
    (hnd : ((e :: anc).map Prod.fst).Nodup)
    (c : Entry) (hc : findChild moves e.1 = some c) :
    c.1 ∉ (e :: anc).map Prod.fst := by
  intro hmem
  set rp := e :: anc with hrp
  have hlen : 0 < rp.length := by simp [hrp]
  obtain ⟨x, hx, hxc⟩ := List.mem_map.mp hmem
  have hxm : x ∈ moves := hsub x hx
  have hcm : c ∈ moves := findChild_mem hc
  have hxceq : x = c := entry_key_inj hk hxm hcm hxc
  subst hxceq
  have hpid : pidOf x = some e.1 := findChild_pid hc
  obtain ⟨i, hgi⟩ := List.mem_iff_get.mp hx
  have hhead : rp.get ⟨0, hlen⟩ = e := rfl
  by_cases hlast : i.val + 1 < rp.length
  · have hstep := List.chain'_iff_get.mp hchain i.val (by omega)
    have hpid2 : pidOf (rp.get ⟨i.val, i.isLt⟩)
        = some (rp.get ⟨i.val + 1, hlast⟩).1 := by
      have : stepRel moves (rp.get ⟨i.val, by omega⟩) (rp.get ⟨i.val + 1, by omega⟩) := hstep
      exact findChild_pid this
    have hgi' : rp.get ⟨i.val, i.isLt⟩ = x := by
      have : (⟨i.val, i.isLt⟩ : Fin rp.length) = i := rfl
      rw [this, hgi]
    rw [hgi', hpid] at hpid2
    have hkeys : (rp.get ⟨i.val + 1, hlast⟩).1 = (rp.get ⟨0, hlen⟩).1 := by
      rw [hhead]
      exact (Option.some.injEq _ _).mp hpid2.symm
    have hfin : (⟨i.val + 1, hlast⟩ : Fin rp.length) = ⟨0, hlen⟩ := by
      have hmap : ∀ (j : Fin rp.length),
          (rp.map Prod.fst).get ⟨j.val, by simpa using j.isLt⟩ = (rp.get j).1 := by
        intro j
        simp [List.get_map]
      have h1 := hmap ⟨i.val + 1, hlast⟩
      have h2 := hmap ⟨0, hlen⟩
      have := hnd.get_inj_iff.mp (h1.trans (hkeys.trans h2.symm))
      have hv : i.val + 1 = 0 := congrArg Fin.val this
      omega
    exact absurd (congrArg Fin.val hfin) (by simp)
  · have hilast : i.val = rp.length - 1 := by omega
    have hgl : rp.getLast (List.cons_ne_nil e anc) = x := by
      rw [List.getLast_eq_get]
      have : (⟨rp.length - 1, by omega⟩ : Fin rp.length) = i := by
        apply Fin.ext
        simpa using hilast.symm
      rw [this, hgi]
    rw [hgl] at hroot
    have hempty : e.1 = [] := by
      rcases hroot with h0 | h0
      · rw [hpid] at h0; exact absurd h0 (by simp)
      · rw [hpid] at h0
        have := (Option.some.injEq _ _).mp h0
        exact this
    have hepid : pidOf e = none := he e (hsub e (List.mem_cons_self e anc)) hempty
    by_cases hone : rp.length = 1
    · have : rp.getLast (List.cons_ne_nil e anc) = e := by
        rw [List.getLast_eq_get]
        have : (⟨rp.length - 1, by omega⟩ : Fin rp.length) = ⟨0, hlen⟩ := by
          apply Fin.ext
          simp [hone]
        rw [this, hhead]
      rw [hgl] at this
      rw [this] at hpid
      rw [hpid] at hepid
      exact absurd hepid (by simp)
    · have h2le : 1 < rp.length := by
        have := hlen
        omega
      have hstep := List.chain'_iff_get.mp hchain 0 (by omega)
      have : stepRel moves (rp.get ⟨0, hlen⟩) (rp.get ⟨1, by omega⟩) := hstep
      rw [hhead] at this
      have := findChild_pid this
      rw [hepid] at this
      exact absurd this (by simp)

/-- The walk from the head of a valid ancestor path visits no identifier
twice and never returns into the path's ancestors. -/
theorem walk_avoid (moves : List Entry) (hk : NodupKeys moves)
    (he : EmptyKeyNoParent moves) :
    ∀ (fuel : Nat) (e : Entry) (anc : List Entry),
      (∀ x ∈ e :: anc, x ∈ moves) →
      List.Chain' (stepRel moves) (e :: anc) →
      RootEntry ((e :: anc).getLast (List.cons_ne_nil e anc)) →
      ((e :: anc).map Prod.fst).Nodup →
      ((walkFrom moves fuel e).map Prod.fst).Nodup ∧
      ∀ k ∈ (walkFrom moves fuel e).map Prod.fst, k ∉ anc.map Prod.fst := by
  intro fuel
  induction fuel with
  | zero =>
    intro e anc hsub _ _ hnd
    refine ⟨by simp [walkFrom], ?_⟩
    intro k hkmem
    simp only [walkFrom, List.map_cons, List.map_nil, List.mem_singleton] at hkmem
    subst hkmem
    rw [List.map_cons] at hnd
    exact (List.nodup_cons.mp hnd).1
  | succ fuel ih =>
    intro e anc hsub hchain hroot hnd
    cases hfc : findChild moves e.1 with
    | none =>
      refine ⟨by simp [walkFrom, hfc], ?_⟩
      intro k hkmem
      simp only [walkFrom, hfc, List.map_cons, List.map_nil, List.mem_singleton] at hkmem
      subst hkmem
      rw [List.map_cons] at hnd
      exact (List.nodup_cons.mp hnd).1
    | some c =>
      have hfresh : c.1 ∉ (e :: anc).map Prod.fst :=
        fresh_child moves hk he e anc hsub hchain hroot hnd c hfc
      have hsub' : ∀ x ∈ c :: e :: anc, x ∈ moves := by
        intro x hx
        rcases List.mem_cons.mp hx with rfl | hx'
        · exact findChild_mem hfc
        · exact hsub x hx'
      have hchain' : List.Chain' (stepRel moves) (c :: e :: anc) :=
        List.chain'_cons.mpr ⟨hfc, hchain⟩
      have hroot' : RootEntry ((c :: e :: anc).getLast (List.cons_ne_nil c (e :: anc))) := by
        have : (c :: e :: anc).getLast (List.cons_ne_nil c (e :: anc))
            = (e :: anc).getLast (List.cons_ne_nil e anc) := by
          exact List.getLast_cons (List.cons_ne_nil e anc)
        rw [this]
        exact hroot
      have hnd' : ((c :: e :: anc).map Prod.fst).Nodup := by
        simp only [List.map_cons]
        exact List.nodup_cons.mpr ⟨by simpa using hfresh, by simpa using hnd⟩
      obtain ⟨ihnd, ihdisj⟩ := ih c (e :: anc) hsub' hchain' hroot' hnd'
      constructor
      · simp only [walkFrom, hfc, List.map_cons]
        refine List.nodup_cons.mpr ⟨?_, ihnd⟩
        intro hin
        exact (ihdisj e.1 hin) (by simp)
      · intro k hkmem
        simp only [walkFrom, hfc, List.map_cons, List.mem_cons] at hkmem
        rcases hkmem with rfl | hk2
        · rw [List.map_cons] at hnd
          exact (List.nodup_cons.mp hnd).1
        · intro hanc
          exact ihdisj k hk2 (by simp [hanc])

/-- No chain revisits an identifier: the walk from a root is
duplicate-free. -/
theorem walk_keys_nodup (moves : List Entry) (hk : NodupKeys moves)
    (he : EmptyKeyNoParent moves) (e : Entry) (hm : e ∈ moves)
    (hr : RootEntry e) (fuel : Nat) :
    ((walkFrom moves fuel e).map Prod.fst).Nodup := by
  refine (walk_avoid moves hk he fuel e [] ?_ ?_ ?_ ?_).1
  · intro x hx
    rcases List.mem_cons.mp hx with rfl | hx'
    · exact hm
    · exact absurd hx' (List.not_mem_nil x)
  · exact List.chain'_singleton e
  · simpa using hr
  · simp

theorem walk_sub (moves : List Entry) :
    ∀ (fuel : Nat) (e : Entry), e ∈ moves →
      ∀ x ∈ walkFrom moves fuel e, x ∈ moves := by
  intro fuel
  induction fuel with
  | zero =>
    intro e hm x hx
    simp only [walkFrom, List.mem_singleton] at hx
    exact hx ▸ hm
  | succ fuel ih =>
    intro e hm x hx
    cases hfc : findChild moves e.1 with
    | none =>
      simp only [walkFrom, hfc, List.mem_singleton] at hx
      exact hx ▸ hm
    | some c =>
      simp only [walkFrom, hfc, List.mem_cons] at hx
      rcases hx with rfl | hx'
      · exact hm
      · exact ih c (findChild_mem hfc) x hx'

theorem walk_ne (moves : List Entry) (fuel : Nat) (e : Entry) :
    walkFrom moves fuel e ≠ [] := by
  cases fuel with
  | zero => simp [walkFrom]
  | succ fuel =>
    cases hfc : findChild moves e.1 <;> simp [walkFrom, hfc]

theorem nodup_subset_length {α : Type} [DecidableEq α] (l l' : List α)
    (h1 : l.Nodup) (h2 : l ⊆ l') : l.length ≤ l'.length := by
  have hc : l.toFinset ⊆ l'.toFinset := by
    intro x hx
    exact List.mem_toFinset.mpr (h2 (List.mem_toFinset.mp hx))
  calc l.length = l.toFinset.card := (List.toFinset_card_of_nodup h1).symm
    _ ≤ l'.toFinset.card := Finset.card_le_card hc
    _ ≤ l'.length := List.toFinset_card_le l'

/-- A chain from a root has at most as many links as the map has entries. -/
theorem walk_len_le (moves : List Entry) (hk : NodupKeys moves)
    (he : EmptyKeyNoParent moves) (e : Entry) (hm : e ∈ moves)
    (hr : RootEntry e) (fuel : Nat) :
    (walkFrom moves fuel e).length ≤ moves.length := by
  have hnd : (walkFrom moves fuel e).Nodup :=
    List.Nodup.of_map Prod.fst (walk_keys_nodup moves hk he e hm hr fuel)
  have hsub : walkFrom moves fuel e ⊆ moves := fun x hx =>
    walk_sub moves fuel e hm x hx
  simpa using nodup_subset_length _ _ hnd hsub

theorem getLastD_irrel {α : Type} :
    ∀ (l : List α), l ≠ [] → ∀ d1 d2 : α, l.getLastD d1 = l.getLastD d2
  | [], h => absurd rfl h
  | [_], _ => fun _ _ => rfl
  | a :: b :: u, _ => fun d1 d2 => by
    rw [List.getLastD_cons d1 a (b :: u), List.getLastD_cons d2 a (b :: u)]

theorem walk_last_or_len (moves : List Entry) :
    ∀ (fuel : Nat) (e : Entry),
      (walkFrom moves fuel e).length = fuel + 1 ∨
      findChild moves ((walkFrom moves fuel e).getLastD dummyEntry).1 = none := by
  intro fuel
  induction fuel with
  | zero => intro e; left; rfl
  | succ fuel ih =>
    intro e
    cases hfc : findChild moves e.1 with
    | none =>
      right
      simp [walkFrom, hfc]
    | some c =>
      rcases ih c with h | h
      · left
        simp [walkFrom, hfc, h]
      · right
        have hne := walk_ne moves fuel c
        have hw : walkFrom moves (fuel + 1) e = e :: walkFrom moves fuel c := by
          simp [walkFrom, hfc]
        rw [hw, List.getLastD_cons dummyEntry e _,
          getLastD_irrel _ hne e dummyEntry]
        exact h

/-- Termination: with `fuel = moves.length` the walk from a root ends at a
node with no traced child, not by fuel exhaustion. -/
theorem walk_complete (moves : List Entry) (hk : NodupKeys moves)
    (he : EmptyKeyNoParent moves) (e : Entry) (hm : e ∈ moves)
    (hr : RootEntry e) :
    findChild moves
      ((walkFrom moves moves.length e).getLastD dummyEntry).1 = none := by
  rcases walk_last_or_len moves moves.length e with h | h
  · have := walk_len_le moves hk he e hm hr moves.length
    omega
  · exact h

/-- Stability: once the walk ends naturally, more fuel changes nothing. -/
theorem walk_extend (moves : List Entry) :
    ∀ (fuel : Nat) (e : Entry),
      findChild moves ((walkFrom moves fuel e).getLastD dummyEntry).1 = none →
      ∀ g, fuel ≤ g → walkFrom moves g e = walkFrom moves fuel e := by
  intro fuel
  induction fuel with
  | zero =>
    intro e hdone g _
    have hfc : findChild moves e.1 = none := by
      simpa [walkFrom] using hdone
    cases g with
    | zero => rfl
    | succ g => simp [walkFrom, hfc]
  | succ fuel ih =>
    intro e hdone g hg
    cases hfc : findChild moves e.1 with
    | none =>
      cases g with
      | zero => omega
      | succ g => simp [walkFrom, hfc]
    | some c =>
      have hne := walk_ne moves fuel c
      have hw : walkFrom moves (fuel + 1) e = e :: walkFrom moves fuel c := by
        simp [walkFrom, hfc]
      have hdone' : findChild moves
          ((walkFrom moves fuel c).getLastD dummyEntry).1 = none := by
        rw [hw, List.getLastD_cons dummyEntry e _,
          getLastD_irrel _ hne e dummyEntry] at hdone
        exact hdone
      cases g with
      | zero => omega
      | succ g =>
        rw [hw]
        have : walkFrom moves (g + 1) e = e :: walkFrom moves g c := by
          simp [walkFrom, hfc]
        rw [this, ih c hdone' g (by omega)]

theorem walk_get_zero (moves : List Entry) (fuel : Nat) (e : Entry)
    (h : 0 < (walkFrom moves fuel e).length) :
    (walkFrom moves fuel e).get ⟨0, h⟩ = e := by
  cases fuel with
  | zero => rfl
  | succ fuel => cases hfc : findChild moves e.1 <;> simp [walkFrom, hfc]

/-- The suffix of a walk from position `i` is the walk from its `i`-th
element with the remaining fuel. -/
theorem walk_drop (moves : List Entry) :
    ∀ (i fuel : Nat) (e : Entry) (h : i < (walkFrom moves fuel e).length),
      (walkFrom moves fuel e).drop i
        = walkFrom moves (fuel - i) ((walkFrom moves fuel e).get ⟨i, h⟩) := by
  intro i
  induction i with
  | zero =>
    intro fuel e h
    rw [walk_get_zero moves fuel e h]
    simp
  | succ i ih =>
    intro fuel e h
    cases fuel with
    | zero =>
      simp only [walkFrom, List.length_singleton] at h
      omega
    | succ fuel =>
      cases hfc : findChild moves e.1 with
      | none =>
        simp only [walkFrom, hfc, List.length_singleton] at h
        omega
      | some c =>
        have hw : walkFrom moves (fuel + 1) e = e :: walkFrom moves fuel c := by
          simp [walkFrom, hfc]
        revert h
        rw [hw]
        intro h
        have hlen : i < (walkFrom moves fuel c).length := by
          simpa using h
        rw [List.drop_succ_cons]
        rw [show (fuel + 1) - (i + 1) = fuel - i from by omega]
        rw [show (e :: walkFrom moves fuel c).get ⟨i + 1, h⟩
            = (walkFrom moves fuel c).get ⟨i, hlen⟩ from rfl]
        exact ih fuel c hlen

theorem getLastD_drop {α : Type} (l : List α) :
    ∀ (i : Nat) (d : α), i < l.length → (l.drop i).getLastD d = l.getLastD d := by
  induction l with
  | nil => intro i d h; simp at h
  | cons a t ih =>
    intro i d h
    cases i with
    | zero => rfl
    | succ i =>
      have hi : i < t.length := by simpa using h
      have ht : t ≠ [] := by
        intro hq
        rw [hq] at hi
        simp at hi
      rw [List.drop_succ_cons, ih i d hi, List.getLastD_cons d a t,
        getLastD_irrel t ht a d]

/-- Every link of a completed chain walks (with full fuel) to the chain's
own terminal. -/
theorem term_of_mem (moves : List Entry)
    (e x : Entry) (hx : x ∈ walkFrom moves moves.length e)
    (hdone : findChild moves
      ((walkFrom moves moves.length e).getLastD dummyEntry).1 = none) :
    (walkFrom moves moves.length x).getLastD dummyEntry
      = (walkFrom moves moves.length e).getLastD dummyEntry := by
  obtain ⟨i, hgi⟩ := List.mem_iff_get.mp hx
  have hdrop := walk_drop moves i.val moves.length e i.isLt
  have hgi' : (walkFrom moves moves.length e).get ⟨i.val, i.isLt⟩ = x := by
    have : (⟨i.val, i.isLt⟩ : Fin (walkFrom moves moves.length e).length) = i := rfl
    rw [this, hgi]
  rw [hgi'] at hdrop
  have hlast : ((walkFrom moves (moves.length - i.val) x).getLastD dummyEntry)
      = (walkFrom moves moves.length e).getLastD dummyEntry := by
    rw [← hdrop]
    exact getLastD_drop _ i.val dummyEntry i.isLt
  have hdone' : findChild moves
      ((walkFrom moves (moves.length - i.val) x).getLastD dummyEntry).1 = none := by
    rw [hlast]
    exact hdone
  have hext := walk_extend moves (moves.length - i.val) x hdone' moves.length (by omega)
  rw [hext, hlast]

/-- Invariant of the outer loop: every emitted chain is the completed walk
of a root in the map, no emitted chain's terminal was already processed,
and distinct emitted chains share no identifier. -/
theorem goChains_spec (moves : List Entry) (hk : NodupKeys moves)
    (he : EmptyKeyNoParent moves) :
    ∀ (rest : List Entry) (processed : List (List Char)),
      (∀ e ∈ rest, e ∈ moves) →
      (∀ c ∈ goChains moves rest processed,
        ∃ e, e ∈ moves ∧ RootEntry e ∧ c = walkFrom moves moves.length e) ∧
      (∀ c ∈ goChains moves rest processed, ∀ x ∈ c, termKey moves x ∉ processed) ∧
      ChainsDisjoint (goChains moves rest processed) := by
  intro rest
  induction rest with
  | nil =>
    intro processed _
    refine ⟨?_, ?_, ?_⟩ <;> simp [goChains, ChainsDisjoint]
  | cons e rest ih =>
    intro processed hrest
    have hem : e ∈ moves := hrest e (List.mem_cons_self e rest)
    have hrest' : ∀ x ∈ rest, x ∈ moves :=
      fun x hx => hrest x (List.mem_cons_of_mem e hx)
    by_cases h1 : e.1 ∈ processed ∨ hasTruthyParent e.2
    · have heq : goChains moves (e :: rest) processed = goChains moves rest processed := by
        simp [goChains, h1]
      rw [heq]
      exact ih processed hrest'
    · have hfalse : hasTruthyParent e.2 = false := by
        push_neg at h1
        exact Bool.not_eq_true _ ▸ (by simpa using h1.2)
      have hroot : RootEntry e := (hasTruthyParent_false_iff e.2).mp hfalse
      have hc0ne : walkFrom moves moves.length e ≠ [] := walk_ne moves moves.length e
      have hdone : findChild moves
          (((walkFrom moves moves.length e).getLastD dummyEntry)).1 = none :=
        walk_complete moves hk he e hem hroot
      have htd : ((walkFrom moves moves.length e).getLastD e)
          = ((walkFrom moves moves.length e).getLastD dummyEntry) :=
        getLastD_irrel _ hc0ne e dummyEntry
      by_cases h2 : ((walkFrom moves moves.length e).getLastD e).1 ∈ processed
      · have heq : goChains moves (e :: rest) processed
            = goChains moves rest processed := by
          simp only [goChains, if_neg h1]
          rw [if_pos h2]
        rw [heq]
        exact ih processed hrest'
      · have heq : goChains moves (e :: rest) processed
            = walkFrom moves moves.length e ::
              goChains moves rest
                (((walkFrom moves moves.length e).getLastD e).1 :: processed) := by
          simp only [goChains, if_neg h1]
          rw [if_neg h2]
        obtain ⟨P0, P1, P2⟩ :=
          ih (((walkFrom moves moves.length e).getLastD e).1 :: processed) hrest'
        have hterm : ∀ x ∈ walkFrom moves moves.length e,
            termKey moves x = ((walkFrom moves moves.length e).getLastD e).1 := by
          intro x hx
          unfold termKey
          rw [term_of_mem moves e x hx hdone, ← htd]
        rw [heq]
        refine ⟨?_, ?_, ?_⟩
        · intro cc hcc
          rcases List.mem_cons.mp hcc with rfl | hcc'
          · exact ⟨e, hem, hroot, rfl⟩
          · exact P0 cc hcc'
        · intro cc hcc x hx
          rcases List.mem_cons.mp hcc with rfl | hcc'
          · rw [hterm x hx]
            exact h2
          · intro hmem
            exact P1 cc hcc' x hx (List.mem_cons_of_mem _ hmem)
        · refine List.pairwise_cons.mpr ⟨?_, P2⟩
          intro c' hc' k hk0 hk'
          obtain ⟨x, hx, hxk⟩ := List.mem_map.mp hk0
          obtain ⟨y, hy, hyk⟩ := List.mem_map.mp hk'
          obtain ⟨e', he'm, -, rfl⟩ := P0 c' hc'
          have hxm : x ∈ moves := walk_sub moves moves.length e hem x hx
          have hym : y ∈ moves := walk_sub moves moves.length e' he'm y hy
          have hxy : x = y := entry_key_inj hk hxm hym (hxk.trans hyk.symm)
          have h3 := P1 _ hc' y hy
          rw [← hxy] at h3
          rw [hterm x hx] at h3
          exact h3 (List.mem_cons_self _ _)

/-! ### C3 — chain conservation -/

set_option maxRecDepth 400000 in
/-- C3 counterexample: in a fan-out map, identifier `c2` is well-formed and
its parent `p` has another traced child (`c1`, emitted), yet `c2` appears
in no emitted chain — the claim that every identifier appears in exactly
one emitted chain fails. -/
theorem c3_fanout_counterexample :
    fanoutMoves.map Prod.fst = ["p".toList, "c1".toList, "c2".toList] ∧
    (resolveChains fanoutMoves).map (fun c => c.map Prod.fst)
      = [["p".toList, "c1".toList]] := by
  decide

/-- C3 (amended): every identifier appears in **at most** one emitted chain
at most once — emitted chains are pairwise disjoint and each chain is
duplicate-free — but an identifier may be silently dropped when its parent
has another traced child (fan-out: first match wins), in addition to the
malformed and cycle cases. -/
theorem c3_chain_conservation (moves : List Entry) (hk : NodupKeys moves)
    (he : EmptyKeyNoParent moves) :
    (∀ c ∈ resolveChains moves, (c.map Prod.fst).Nodup) ∧
    ChainsDisjoint (resolveChains moves) := by
  obtain ⟨P0, -, P2⟩ := goChains_spec moves hk he moves [] (fun e h => h)
  refine ⟨?_, P2⟩
  intro c hc
  obtain ⟨e, hm, hr, rfl⟩ := P0 c hc
  exact walk_keys_nodup moves hk he e hm hr moves.length

set_option maxRecDepth 400000 in
/-- C3 witness. -/
theorem c3_witness :
    (∀ c ∈ resolveChains fanoutMoves, (c.map Prod.fst).Nodup) ∧
    ChainsDisjoint (resolveChains fanoutMoves) :=
  c3_chain_conservation fanoutMoves (by unfold NodupKeys; decide)
    (by unfold EmptyKeyNoParent; decide)

/-! ### C4 — cycle safety -/

set_option maxRecDepth 400000 in
/-- C4 counterexample: a document whose inheritance map is the two-cycle
A→B→A emits **no** chain at all — both members carry a parent, so neither
is a root — contradicting the claim that a chain of length at most 2 is
emitted for the cycle by a stop-on-revisit guard. -/
theorem c4_cycle_counterexample :
    (buildMoves cycDoc).map (fun e => (e.1, pidOf e))
      = [("A".toList, some "B".toList), ("B".toList, some "A".toList)] ∧
    parseMoveTable cycDoc = [] := by
  decide

set_option maxRecDepth 400000 in
/-- C4 (amended): the chain walk always terminates, but not by an in-chain
revisit check: a chain from a root can never revisit an identifier (parent
pointers give each node a unique predecessor and roots carry no truthy
parent), so `moves.length` fuel completes every walk and further fuel
changes nothing; a pure parent-cycle such as A→B→A has no root member, so
no chain is emitted for it at all. -/
theorem c4_cycle_termination (moves : List Entry) (hk : NodupKeys moves)
    (he : EmptyKeyNoParent moves) (e : Entry) (hm : e ∈ moves)
    (hr : hasTruthyParent e.2 = false) :
    findChild moves ((walkFrom moves moves.length e).getLastD dummyEntry).1 = none ∧
    (∀ f, moves.length ≤ f → walkFrom moves f e = walkFrom moves moves.length e) ∧
    ((walkFrom moves moves.length e).map Prod.fst).Nodup ∧
    parseMoveTable cycDoc = [] := by
  have hroot := (hasTruthyParent_false_iff e.2).mp hr
  refine ⟨walk_complete moves hk he e hm hroot, ?_,
    walk_keys_nodup moves hk he e hm hroot _, by decide⟩
  intro f hf
  exact walk_extend moves moves.length e (walk_complete moves hk he e hm hroot) f hf

set_option maxRecDepth 400000 in
/-- C4 witness. -/
theorem c4_witness :
    findChild fanoutMoves
      ((walkFrom fanoutMoves fanoutMoves.length
        ("p".toList, ⟨[("id".toList, "p".toList)], false⟩)).getLastD dummyEntry).1 = none ∧
    walkFrom fanoutMoves 5 ("p".toList, ⟨[("id".toList, "p".toList)], false⟩)
      = walkFrom fanoutMoves fanoutMoves.length
          ("p".toList, ⟨[("id".toList, "p".toList)], false⟩) := by
  have h := c4_cycle_termination fanoutMoves (by unfold NodupKeys; decide)
    (by unfold EmptyKeyNoParent; decide)
    ("p".toList, ⟨[("id".toList, "p".toList)], false⟩) (by decide) (by decide)
  exact ⟨h.1, h.2.1 5 (by decide)⟩

/-! ### C1 — the end-to-end scenario -/

set_option maxRecDepth 400000 in
/-- C1 counterexample: on the end-to-end document the emitted record has
`HitLevel = ""` and `Impact` absent — not `HitLevel = "h"`, `Impact = 10`
as the claim states — because level and startup are read from the terminal
link (`a2`), which has no `target` or `startup` parameter. -/
theorem c1_counterexample :
    (parseMoveTable c1doc).map MoveData.HitLevel = [[]] ∧
    (parseMoveTable c1doc).map MoveData.Impact = [none] := by
  decide

set_option maxRecDepth 400000 in
/-- C1 (amended): the document resolves to exactly one record with
`Command = "1,2"`, `Damage = "5"`, `DamageDec = 5`,
`Notes = "first hit; second hit"`, and — since frame-data fields come from
the terminal link, which carries neither `target` nor `startup` —
`HitLevel = ""` and `Impact` absent (`ImpactRaw = ""`); all flags are 0 and
the remaining fields are empty/absent. -/
theorem c1_end_to_end :
    parseMoveTable c1doc =
      [{ WavuID := none
         Command := "1,2".toList
         MoveName := []
         HitLevel := []
         Impact := none
         ImpactRaw := []
         Damage := "5".toList
         DamageDec := 5
         Block := []
         BlockDec := none
         Hit := []
         HitDec := none
         CounterHit := []
         CounterHitDec := none
         GuardBurst := 0
         isGI := 0
         isUB := 0
         isLH := 0
         isSS := 0
         isBA := 0
         isTH := 0
         isRE := 0
         isHE := 0
         isHS := 0
         isHB := 0
         isSM := 0
         isUnparryable := 0
         isHoming := 0
         Notes := "first hit; second hit".toList }] := by
  decide
